import Mathlib

/-!
Shallow embedding of `src/lighthouse-core/lib/asset-saver-metrics.js`
(class `TraceProcessor`): `_riskPercentiles`, `getRiskToResponsiveness`
and `getLogNormalDistribution`.

JS numbers are modelled by exact rationals `ℚ` (and by reals `ℝ` for the
log-normal fit, whose code uses `Math.log` / `Math.sqrt`).  In `ℚ` a
division by zero denotes `0`; the theorems below track the places where
the JS code can divide by a zero `remainingCount` (where JS floats would
silently produce `±Infinity` or `NaN`) through an instrumented variant,
so no conclusion rests on the `ℚ` division convention.
-/

/-- `BASE_RESPONSE_LATENCY`: the ideal input response latency (ms), the time
between the input task and the first frame of the response. -/
def BASE_RESPONSE_LATENCY : ℚ := 16

/-- State of the percentile walk inside `TraceProcessor._riskPercentiles`:
the mutable locals `completedTime`, `duration`, `cdfTime`, `durationIndex`,
`remainingCount` and `clippedLength` of the JS function. -/
structure RPState where
  completedTime : ℚ
  duration : ℚ
  cdfTime : ℚ
  durationIndex : ℤ
  remainingCount : ℤ
  clippedLength : ℚ
  deriving Repr, DecidableEq

/-- Guard of the inner `while` loop:
`cdfTime < percentileTime && durationIndex < durations.length - 1`. -/
def rpCond (durations : List ℚ) (percentileTime : ℚ) (s : RPState) : Prop :=
  s.cdfTime < percentileTime ∧ s.durationIndex < (durations.length : ℤ) - 1

instance (durations : List ℚ) (t : ℚ) (s : RPState) : Decidable (rpCond durations t s) :=
  inferInstanceAs (Decidable (s.cdfTime < t ∧ s.durationIndex < (durations.length : ℤ) - 1))

/-- One iteration of the `while` loop body of `_riskPercentiles`:

```
completedTime += duration;
remainingCount -= (duration < 0 ? -1 : 1);
if (clippedLength > 0 && clippedLength < durations[durationIndex + 1]) {
  duration = -clippedLength; clippedLength = 0;
} else {
  durationIndex++; duration = durations[durationIndex];
}
cdfTime = completedTime + Math.abs(duration) * remainingCount;
```

`durations[durationIndex + 1]` is modelled with `List.getD _ _ 0`; the loop
guard keeps `durationIndex + 1` inside the array whenever the access happens. -/
def rpStep (durations : List ℚ) (s : RPState) : RPState :=
  let completedTime := s.completedTime + s.duration
  let remainingCount := s.remainingCount - (if s.duration < 0 then -1 else 1)
  if 0 < s.clippedLength ∧ s.clippedLength < durations.getD (s.durationIndex + 1).toNat 0 then
    { completedTime := completedTime
      duration := -s.clippedLength
      cdfTime := completedTime + |(-s.clippedLength)| * (remainingCount : ℚ)
      durationIndex := s.durationIndex
      remainingCount := remainingCount
      clippedLength := 0 }
  else
    let durationIndex := s.durationIndex + 1
    let duration := durations.getD durationIndex.toNat 0
    { completedTime := completedTime
      duration := duration
      cdfTime := completedTime + |duration| * (remainingCount : ℚ)
      durationIndex := durationIndex
      remainingCount := remainingCount
      clippedLength := s.clippedLength }

/-- The `while` loop of `_riskPercentiles`, with explicit fuel.
`rpFuel` below always suffices (`rpLoop_not_cond`), so with that fuel this is
the exact semantics of the unbounded JS loop. -/
def rpLoop (durations : List ℚ) (percentileTime : ℚ) : ℕ → RPState → RPState
  | 0, s => s
  | fuel + 1, s =>
    if rpCond durations percentileTime s then
      rpLoop durations percentileTime fuel (rpStep durations s)
    else s

/-- Fuel bound for `rpLoop`: the walk advances `durationIndex` at most
`durations.length + 1` times and consumes the clipped pseudo-duration at most
once. -/
def rpFuel (durations : List ℚ) : ℕ := 2 * durations.length + 2

/-- State on entry of the percentile loop of `_riskPercentiles`:

```
let busyTime = 0;
for (let i = 0; i < durations.length; i++) busyTime += durations[i];
busyTime -= clippedLength;
let completedTime = totalTime - busyTime;
let duration = 0;
let cdfTime = completedTime;
let durationIndex = -1;
let remainingCount = durations.length + 1;
if (clippedLength > 0) remainingCount--;
``` -/
def rpInit (durations : List ℚ) (totalTime : ℚ) (clippedLength : ℚ) : RPState :=
  let busyTime := durations.sum - clippedLength
  let completedTime := totalTime - busyTime
  { completedTime := completedTime
    duration := 0
    cdfTime := completedTime
    durationIndex := -1
    remainingCount :=
      if 0 < clippedLength then (durations.length : ℤ) else (durations.length : ℤ) + 1
    clippedLength := clippedLength }

/-- The latency pushed for one percentile:
`Math.max(0, (percentileTime - completedTime) / remainingCount) + BASE_RESPONSE_LATENCY`. -/
def rpTime (percentileTime : ℚ) (s : RPState) : ℚ :=
  max 0 ((percentileTime - s.completedTime) / (s.remainingCount : ℚ)) + BASE_RESPONSE_LATENCY

/-- The `for (const percentile of percentiles)` loop of `_riskPercentiles`:
state flows from one percentile to the next. -/
def rpGo (durations : List ℚ) (totalTime : ℚ) : List ℚ → RPState → List (ℚ × ℚ)
  | [], _ => []
  | p :: ps, s =>
    let s' := rpLoop durations (p * totalTime) (rpFuel durations) s
    (p, rpTime (p * totalTime) s') :: rpGo durations totalTime ps s'

/-- `TraceProcessor._riskPercentiles(durations, totalTime, percentiles,
clippedLength)`.  `durations` is expected sorted ascending, `percentiles`
ascending in `(0, 1]`, `clippedLength` the portion of one of the durations
that overlaps the end of the window (`0` when absent). -/
def riskPercentiles (durations : List ℚ) (totalTime : ℚ) (percentiles : List ℚ)
    (clippedLength : ℚ) : List (ℚ × ℚ) :=
  rpGo durations totalTime percentiles (rpInit durations totalTime clippedLength)

/-- Instrumented variant of the percentile loop: `none` exactly when a
percentile's final division happens with `remainingCount = 0` — the situation
in which JS floats would silently produce `±Infinity` or `NaN` rather than
fail (the code has no error path). -/
def rpGoChecked (durations : List ℚ) (totalTime : ℚ) :
    List ℚ → RPState → Option (List (ℚ × ℚ))
  | [], _ => some []
  | p :: ps, s =>
    let s' := rpLoop durations (p * totalTime) (rpFuel durations) s
    if s'.remainingCount = 0 then none
    else (rpGoChecked durations totalTime ps s').map
      (fun rest => (p, rpTime (p * totalTime) s') :: rest)

/-- `_riskPercentiles` with the division-by-zero instrumentation of
`rpGoChecked`. -/
def riskPercentilesChecked (durations : List ℚ) (totalTime : ℚ) (percentiles : List ℚ)
    (clippedLength : ℚ) : Option (List (ℚ × ℚ)) :=
  rpGoChecked durations totalTime percentiles (rpInit durations totalTime clippedLength)

/-- A trace event record: process id, thread id, name, timestamp (µs) and the
optional duration (µs) used by `getRiskToResponsiveness`. -/
structure TraceEvent where
  name : String
  pid : ℤ
  tid : ℤ
  ts : ℚ
  dur : Option ℚ
  deriving Repr, DecidableEq

/-- Body of the `topLevelTasks.forEach` of `getRiskToResponsiveness`: clips one
task event to the window `[startTime, endTime]`, appends the in-window
duration, and overwrites `clippedLength` when the event runs past the end:

```
const eventStart = (event.ts - tsBase) / 1000;
const eventDuration = (event.dur || 0) / 1000;
const eventEnd = eventStart + eventDuration;
if (eventEnd <= startTime || eventStart >= endTime) return;
let adjEventStart = eventStart;
let duration = eventDuration;
if (adjEventStart < startTime) { adjEventStart = startTime; duration = eventEnd - adjEventStart; }
if (eventEnd > endTime) { clippedLength = duration - (endTime - adjEventStart); }
durations.push(duration);
``` -/
def sliceStep (tsBase startTime endTime : ℚ) (acc : List ℚ × ℚ) (e : TraceEvent) :
    List ℚ × ℚ :=
  let eventStart := (e.ts - tsBase) / 1000
  let eventDuration := e.dur.getD 0 / 1000
  let eventEnd := eventStart + eventDuration
  if eventEnd ≤ startTime ∨ eventStart ≥ endTime then acc
  else
    let adjEventStart := if eventStart < startTime then startTime else eventStart
    let duration := if eventStart < startTime then eventEnd - adjEventStart else eventDuration
    let clippedLength := if eventEnd > endTime then duration - (endTime - adjEventStart) else acc.2
    (acc.1 ++ [duration], clippedLength)

/-- The whole `topLevelTasks.forEach` pass: durations in event order plus the
final `clippedLength` (initially `0`). -/
def sliceDurations (tsBase startTime endTime : ℚ) (events : List TraceEvent) : List ℚ × ℚ :=
  events.foldl (sliceStep tsBase startTime endTime) ([], 0)

/-- Default percentile list `[0.5, 0.75, 0.9, 0.99, 1]`. -/
def defaultPercentiles : List ℚ := [1/2, 3/4, 9/10, 99/100, 1]

/-- `TraceProcessor.getRiskToResponsiveness(trace, startTime, endTime,
percentiles)`.  The JS sorts `trace.traceEvents` and (when supplied)
`percentiles` **in place** (`Array.prototype.sort`); to capture that, the
result triple carries, next to the `{percentile, time}` list, the post-call
contents of those two caller-visible arrays.  `none` models the JS
`TypeError`s: no event with `ts ≠ 0` (`events[0].ts`) or no
`TracingStartedInPage` event (`startEvent.pid`). -/
def getRiskToResponsiveness (traceEvents : List TraceEvent) (startTime? endTime? : Option ℚ)
    (percentiles? : Option (List ℚ)) :
    Option (List (ℚ × ℚ) × List TraceEvent × List ℚ) :=
  let sortedEvents := traceEvents.insertionSort (fun a b => a.ts ≤ b.ts)
  let events := sortedEvents.filter (fun e => decide (e.ts ≠ 0))
  match events with
  | [] => none
  | e0 :: rest =>
    let tsBase := e0.ts
    let lastEvent := rest.getLastD e0
    let startTime := startTime?.getD 0
    let endTime := endTime?.getD ((lastEvent.ts - tsBase) / 1000)
    let totalTime := endTime - startTime
    let percentiles :=
      match percentiles? with
      | some ps => ps.insertionSort (· ≤ ·)
      | none => defaultPercentiles
    match sortedEvents.find? (fun e => e.name == "TracingStartedInPage") with
    | none => none
    | some startEvent =>
      let topLevelTasks := sortedEvents.filter
        (fun e => e.pid == startEvent.pid && e.tid == startEvent.tid &&
          e.name == "MessageLoop::RunTask")
      let slices := sliceDurations tsBase startTime endTime topLevelTasks
      let durations := slices.1.insertionSort (· ≤ ·)
      some (riskPercentiles durations totalTime percentiles slices.2, sortedEvents, percentiles)

/-- `TraceProcessor.getLogNormalDistribution(median, falloff)`:

```
const location = Math.log(median);
const logRatio = Math.log(falloff / median);
const shape = 0.5 * Math.sqrt(1 - 3 * logRatio - Math.sqrt((logRatio - 3) * (logRatio - 3) - 8));
return new ...LogNormalDistribution(location, shape);
```

The function performs no validation and never raises; `none` models the cases
where the JS float computation does not yield finite parameters (`Math.log`
of a non-positive argument, `Math.sqrt` of a negative radicand: `NaN` /
`±Infinity`).  For positive inputs with non-negative radicands the computation
is the real-valued one recorded here. -/
noncomputable def getLogNormalDistribution (median falloff : ℝ) : Option (ℝ × ℝ) :=
  let location := Real.log median
  let logRatio := Real.log (falloff / median)
  let inner := (logRatio - 3) * (logRatio - 3) - 8
  let outer := 1 - 3 * logRatio - Real.sqrt inner
  if 0 < median ∧ 0 < falloff ∧ 0 ≤ inner ∧ 0 ≤ outer then
    some (location, 0.5 * Real.sqrt outer)
  else none

/-- Concrete event: the `TracingStartedInPage` marker of `testTrace`. -/
def evTSI : TraceEvent :=
  { name := "TracingStartedInPage", pid := 1, tid := 1, ts := 1000, dur := none }

/-- Concrete event: a top-level task spanning `[1, 31]` ms relative to
`tsBase = 1000`µs. -/
def evTask1 : TraceEvent :=
  { name := "MessageLoop::RunTask", pid := 1, tid := 1, ts := 2000, dur := some 30000 }

/-- Concrete event: a top-level task spanning `[49, 59]` ms relative to
`tsBase = 1000`µs. -/
def evTask2 : TraceEvent :=
  { name := "MessageLoop::RunTask", pid := 1, tid := 1, ts := 50000, dur := some 10000 }

/-- A small well-formed trace used for concrete evaluations: a
`TracingStartedInPage` marker and two top-level tasks on the same thread. -/
def testTrace : List TraceEvent := [evTSI, evTask1, evTask2]

/-- Decreasing measure for the `while` loop: twice the number of real
durations not yet selected, plus one while the clipped pseudo-duration is
still pending. -/
def rpMeasure (durations : List ℚ) (s : RPState) : ℕ :=
  2 * ((durations.length : ℤ) - 1 - s.durationIndex).toNat +
    (if 0 < s.clippedLength then 1 else 0)


/-- The current `duration` is either the initial `0` (cursor still at `-1`) or
the array element at the cursor. -/
def DurAt (durations : List ℚ) (s : RPState) : Prop :=
  (s.durationIndex = -1 ∧ s.duration = 0) ∨
  (0 ≤ s.durationIndex ∧ s.durationIndex < (durations.length : ℤ) ∧
    s.duration = durations.getD s.durationIndex.toNat 0)

/-- The transient state right after the clipped pseudo-duration was selected
with no other probability mass remaining: `duration < 0` and
`remainingCount = 0`. -/
def Brc0 (s : RPState) : Prop := s.duration < 0 ∧ s.remainingCount = 0

/-- Invariant of the percentile walk, for a duration sample that is sorted
ascending and non-negative with a clipped length below some duration.  The
walk is in one of three phases: the clipped pseudo-duration is still pending
(`phaseA`, `clippedLength > 0`), it is the currently selected `duration`
(`phaseB`, `duration < 0`), or it never existed / has been fully consumed
(`phaseC`).  In each phase `remainingCount` is determined by the cursor. -/
structure RPInv (durations : List ℚ) (s : RPState) : Prop where
  idx_lb : -1 ≤ s.durationIndex
  clip_nonneg : 0 ≤ s.clippedLength
  cdf_eq : s.cdfTime = s.completedTime + |s.duration| * (s.remainingCount : ℚ)
  phaseA : 0 < s.clippedLength →
    0 ≤ s.duration ∧ s.duration ≤ s.clippedLength ∧
    s.remainingCount = (durations.length : ℤ) - 1 - s.durationIndex ∧
    s.durationIndex ≤ (durations.length : ℤ) - 2 ∧
    (∃ d ∈ durations, s.clippedLength < d) ∧ DurAt durations s
  phaseB : s.duration < 0 →
    s.clippedLength = 0 ∧
    s.remainingCount = (durations.length : ℤ) - 2 - s.durationIndex ∧
    s.durationIndex ≤ (durations.length : ℤ) - 2 ∧
    -s.duration < durations.getD (s.durationIndex + 1).toNat 0
  phaseC : s.clippedLength = 0 → 0 ≤ s.duration →
    s.remainingCount = (durations.length : ℤ) - s.durationIndex ∧
    s.durationIndex ≤ (durations.length : ℤ) - 1 ∧ DurAt durations s


/-- The clamped inverse-CDF estimate before the base latency is added:
`rpTime t s = rpVal t s + BASE_RESPONSE_LATENCY`. -/
def rpVal (t : ℚ) (s : RPState) : ℚ :=
  max 0 ((t - s.completedTime) / (s.remainingCount : ℚ))


/-- The discard test of the window sampler:
`eventEnd <= startTime || eventStart >= endTime`. -/
def sliceDiscarded (tsBase startTime endTime : ℚ) (e : TraceEvent) : Prop :=
  (e.ts - tsBase) / 1000 + e.dur.getD 0 / 1000 ≤ startTime ∨
    (e.ts - tsBase) / 1000 ≥ endTime

instance (tsBase startTime endTime : ℚ) (e : TraceEvent) :
    Decidable (sliceDiscarded tsBase startTime endTime e) :=
  inferInstanceAs (Decidable (_ ∨ _))

/-- A task event that survives the discard test but runs past the window's
end: exactly the events for which the sampler overwrites `clippedLength`. -/
def sliceEndClipped (tsBase startTime endTime : ℚ) (e : TraceEvent) : Prop :=
  ¬ sliceDiscarded tsBase startTime endTime e ∧
    endTime < (e.ts - tsBase) / 1000 + e.dur.getD 0 / 1000

instance (tsBase startTime endTime : ℚ) (e : TraceEvent) :
    Decidable (sliceEndClipped tsBase startTime endTime e) :=
  inferInstanceAs (Decidable (_ ∧ _))

/-- The `clippedLength` value that an end-clipped event writes:
`duration - (endTime - adjEventStart)`. -/
def sliceClipOf (tsBase startTime endTime : ℚ) (e : TraceEvent) : ℚ :=
  let eventStart := (e.ts - tsBase) / 1000
  let eventEnd := eventStart + e.dur.getD 0 / 1000
  let adjEventStart := if eventStart < startTime then startTime else eventStart
  let duration :=
    if eventStart < startTime then eventEnd - adjEventStart else e.dur.getD 0 / 1000
  duration - (endTime - adjEventStart)


/-- Evaluation of the trace-processing prefix of `getRiskToResponsiveness` on
`testTrace`: events are already sorted, none has `ts = 0`, `tsBase = 1000`µs,
the default `endTime` is `49` ms, the main thread is `pid 1 / tid 1`, and the
top-level tasks are `evTask1, evTask2`. -/
theorem getRisk_testTrace (s? e? : Option ℚ) (ps? : Option (List ℚ)) :
    getRiskToResponsiveness testTrace s? e? ps? =
      some (riskPercentiles
          ((sliceDurations 1000 (s?.getD 0) (e?.getD 49) [evTask1, evTask2]).1.insertionSort
            (· ≤ ·))
          (e?.getD 49 - s?.getD 0)
          (ps?.elim defaultPercentiles (fun ps => ps.insertionSort (· ≤ ·)))
          (sliceDurations 1000 (s?.getD 0) (e?.getD 49) [evTask1, evTask2]).2,
        testTrace,
        ps?.elim defaultPercentiles (fun ps => ps.insertionSort (· ≤ ·))) := by
  have hsort : testTrace.insertionSort (fun a b => a.ts ≤ b.ts) = testTrace := by
    norm_num [testTrace, evTSI, evTask1, evTask2, List.insertionSort, List.orderedInsert]
  have hfilter : testTrace.filter (fun e => decide (e.ts ≠ 0)) = [evTSI, evTask1, evTask2] := by
    norm_num [testTrace, evTSI, evTask1, evTask2, List.filter]
  have hfind : testTrace.find? (fun e => e.name == "TracingStartedInPage") = some evTSI := by
    simp [testTrace, evTSI, evTask1, evTask2, List.find?]
  have htop : testTrace.filter (fun e =>
      e.pid == evTSI.pid && e.tid == evTSI.tid && e.name == "MessageLoop::RunTask") =
      [evTask1, evTask2] := by
    simp [testTrace, evTSI, evTask1, evTask2, List.filter]
  have hlast : ([evTask1, evTask2] : List TraceEvent).getLastD evTSI = evTask2 := rfl
  have hts1 : evTSI.ts = 1000 := rfl
  have hts2 : evTask2.ts = 50000 := rfl
  cases ps? with
  | none =>
    simp only [getRiskToResponsiveness, hsort, hfilter, hlast, hts1, hts2]
    rw [hfind]
    simp only [htop, Option.elim]
    norm_num
  | some ps =>
    simp only [getRiskToResponsiveness, hsort, hfilter, hlast, hts1, hts2]
    rw [hfind]
    simp only [htop, Option.elim]
    norm_num

/-! ### Termination and basic behaviour of the `while` loop -/

theorem rpMeasure_step_lt (durations : List ℚ) (t : ℚ) (s : RPState)
    (h : rpCond durations t s) :
    rpMeasure durations (rpStep durations s) < rpMeasure durations s := by
  have hidx : s.durationIndex < (durations.length : ℤ) - 1 := h.2
  by_cases hc : 0 < s.clippedLength ∧
      s.clippedLength < durations.getD (s.durationIndex + 1).toNat 0
  · simp only [rpStep, if_pos hc, rpMeasure, if_neg (lt_irrefl (0 : ℚ)), if_pos hc.1]
    omega
  · simp only [rpStep, if_neg hc, rpMeasure]
    omega

theorem rpLoop_eq_of_not_cond (durations : List ℚ) (t : ℚ) (fuel : ℕ) (s : RPState)
    (h : ¬ rpCond durations t s) : rpLoop durations t fuel s = s := by
  cases fuel with
  | zero => rfl
  | succ n => simp [rpLoop, if_neg h]

theorem rpLoop_succ_of_cond (durations : List ℚ) (t : ℚ) (fuel : ℕ) (s : RPState)
    (h : rpCond durations t s) :
    rpLoop durations t (fuel + 1) s = rpLoop durations t fuel (rpStep durations s) := by
  simp [rpLoop, if_pos h]

/-- With enough fuel the loop runs until its guard fails, exactly like the
unbounded JS `while`. -/
theorem rpLoop_not_cond (durations : List ℚ) (t : ℚ) :
    ∀ fuel s, rpMeasure durations s ≤ fuel →
      ¬ rpCond durations t (rpLoop durations t fuel s) := by
  intro fuel
  induction fuel with
  | zero =>
    intro s hf hcond
    have hc2 : s.durationIndex < (durations.length : ℤ) - 1 := hcond.2
    simp only [rpMeasure] at hf
    omega
  | succ n ih =>
    intro s hf
    by_cases h : rpCond durations t s
    · rw [rpLoop_succ_of_cond durations t n s h]
      exact ih _ (by have := rpMeasure_step_lt durations t s h; omega)
    · rw [rpLoop_eq_of_not_cond durations t _ s h]
      exact h

/-! ### Helpers about sorted duration lists -/

theorem sorted_getD_le_getD {l : List ℚ} (hs : l.Sorted (· ≤ ·)) {i j : ℕ}
    (hij : i ≤ j) (hj : j < l.length) : l.getD i 0 ≤ l.getD j 0 := by
  have hi : i < l.length := lt_of_le_of_lt hij hj
  rw [List.getD_eq_getElem l 0 hi, List.getD_eq_getElem l 0 hj]
  rcases lt_or_eq_of_le hij with hlt | rfl
  · exact List.pairwise_iff_getElem.mp hs i j hi hj hlt
  · exact le_refl _

theorem mem_le_getD_last {l : List ℚ} (hs : l.Sorted (· ≤ ·)) {d : ℚ} (hd : d ∈ l) :
    d ≤ l.getD (l.length - 1) 0 := by
  obtain ⟨i, hi, rfl⟩ := List.getElem_of_mem hd
  have h0 : 0 < l.length := lt_of_le_of_lt (Nat.zero_le i) hi
  have := sorted_getD_le_getD hs (by omega : i ≤ l.length - 1) (Nat.sub_lt h0 one_pos)
  rwa [List.getD_eq_getElem l 0 hi] at this

theorem getD_mem_of_lt {l : List ℚ} {i : ℕ} (h : i < l.length) : l.getD i 0 ∈ l := by
  rw [List.getD_eq_getElem l 0 h]
  exact List.getElem_mem h

/-! ### Branch characterisations of one loop iteration -/

theorem rpStep_clip_eq (durations : List ℚ) (s : RPState)
    (hc : 0 < s.clippedLength ∧
      s.clippedLength < durations.getD (s.durationIndex + 1).toNat 0)
    (hd : ¬ s.duration < 0) :
    rpStep durations s =
      { completedTime := s.completedTime + s.duration
        duration := -s.clippedLength
        cdfTime := s.completedTime + s.duration +
          s.clippedLength * ((s.remainingCount - 1 : ℤ) : ℚ)
        durationIndex := s.durationIndex
        remainingCount := s.remainingCount - 1
        clippedLength := 0 } := by
  simp only [rpStep, if_pos hc, if_neg hd]
  rw [abs_neg, abs_of_pos hc.1]

theorem rpStep_real_eq_nonneg (durations : List ℚ) (s : RPState)
    (hc : ¬(0 < s.clippedLength ∧
      s.clippedLength < durations.getD (s.durationIndex + 1).toNat 0))
    (hd : ¬ s.duration < 0) :
    rpStep durations s =
      { completedTime := s.completedTime + s.duration
        duration := durations.getD (s.durationIndex + 1).toNat 0
        cdfTime := s.completedTime + s.duration +
          |durations.getD (s.durationIndex + 1).toNat 0| * ((s.remainingCount - 1 : ℤ) : ℚ)
        durationIndex := s.durationIndex + 1
        remainingCount := s.remainingCount - 1
        clippedLength := s.clippedLength } := by
  simp only [rpStep, if_neg hc, if_neg hd]

theorem rpStep_real_eq_neg (durations : List ℚ) (s : RPState)
    (hc : ¬(0 < s.clippedLength ∧
      s.clippedLength < durations.getD (s.durationIndex + 1).toNat 0))
    (hd : s.duration < 0) :
    rpStep durations s =
      { completedTime := s.completedTime + s.duration
        duration := durations.getD (s.durationIndex + 1).toNat 0
        cdfTime := s.completedTime + s.duration +
          |durations.getD (s.durationIndex + 1).toNat 0| * ((s.remainingCount + 1 : ℤ) : ℚ)
        durationIndex := s.durationIndex + 1
        remainingCount := s.remainingCount + 1
        clippedLength := s.clippedLength } := by
  simp only [rpStep, if_neg hc, if_pos hd, sub_neg_eq_add]

/-! ### The loop invariant -/

theorem RPInv.rc_nonneg {durations : List ℚ} {s : RPState} (h : RPInv durations s) :
    0 ≤ s.remainingCount := by
  rcases lt_or_le s.duration 0 with hd | hd
  · obtain ⟨-, hrc, hidx, -⟩ := h.phaseB hd
    omega
  · rcases h.clip_nonneg.lt_or_eq with hclip | hclip
    · obtain ⟨-, -, hrc, hidx, -, -⟩ := h.phaseA hclip
      omega
    · obtain ⟨hrc, hidx, -⟩ := h.phaseC hclip.symm hd
      omega

theorem RPInv.rc_pos_of_not_brc0 {durations : List ℚ} {s : RPState}
    (h : RPInv durations s) (hb : ¬ Brc0 s) : 1 ≤ s.remainingCount := by
  rcases lt_or_le s.duration 0 with hd | hd
  · obtain ⟨-, hrc, hidx, -⟩ := h.phaseB hd
    have : s.remainingCount ≠ 0 := fun h0 => hb ⟨hd, h0⟩
    omega
  · rcases h.clip_nonneg.lt_or_eq with hclip | hclip
    · obtain ⟨-, -, hrc, hidx, -, -⟩ := h.phaseA hclip
      omega
    · obtain ⟨hrc, hidx, -⟩ := h.phaseC hclip.symm hd
      omega

theorem rpInit_inv (durations : List ℚ) (totalTime clippedLength : ℚ)
    (hclip0 : 0 ≤ clippedLength)
    (hclip : 0 < clippedLength → ∃ d ∈ durations, clippedLength < d) :
    RPInv durations (rpInit durations totalTime clippedLength) := by
  rcases hclip0.lt_or_eq with hpos | hzero
  · obtain ⟨d, hd, hlt⟩ := hclip hpos
    have hlen : 1 ≤ durations.length := List.length_pos.mpr (List.ne_nil_of_mem hd)
    refine ⟨?_, ?_, ?_, ?_, ?_, ?_⟩
    · show (-1 : ℤ) ≤ -1
      exact le_refl _
    · exact hclip0
    · show totalTime - (durations.sum - clippedLength) =
        totalTime - (durations.sum - clippedLength) + |(0 : ℚ)| * _
      simp
    · intro _
      refine ⟨le_refl 0, le_of_lt hpos, ?_, ?_, ⟨d, hd, hlt⟩, Or.inl ⟨rfl, rfl⟩⟩
      · show (if 0 < clippedLength then (durations.length : ℤ) else (durations.length : ℤ) + 1) =
          (durations.length : ℤ) - 1 - (-1)
        rw [if_pos hpos]
        omega
      · show (-1 : ℤ) ≤ (durations.length : ℤ) - 2
        omega
    · intro hneg
      exact absurd hneg (lt_irrefl 0)
    · intro hz _
      exact absurd hpos (by rw [show (rpInit durations totalTime clippedLength).clippedLength =
        clippedLength from rfl] at hz; rw [hz]; exact lt_irrefl 0)
  · refine ⟨?_, hclip0, ?_, ?_, ?_, ?_⟩
    · show (-1 : ℤ) ≤ -1
      exact le_refl _
    · show totalTime - (durations.sum - clippedLength) =
        totalTime - (durations.sum - clippedLength) + |(0 : ℚ)| * _
      simp
    · intro hpos
      exact absurd hpos (by rw [← hzero]; exact lt_irrefl 0)
    · intro hneg
      exact absurd hneg (lt_irrefl 0)
    · intro _ _
      refine ⟨?_, ?_, Or.inl ⟨rfl, rfl⟩⟩
      · show (if 0 < clippedLength then (durations.length : ℤ) else (durations.length : ℤ) + 1) =
          (durations.length : ℤ) - (-1)
        rw [if_neg (by rw [← hzero]; exact lt_irrefl 0)]
        omega
      · show (-1 : ℤ) ≤ (durations.length : ℤ) - 1
        omega

theorem rpStep_inv (durations : List ℚ) (hsorted : durations.Sorted (· ≤ ·))
    (hpos : ∀ d ∈ durations, 0 ≤ d) (t : ℚ) (s : RPState)
    (hInv : RPInv durations s) (hcond : rpCond durations t s) :
    RPInv durations (rpStep durations s) := by
  have hidx : s.durationIndex < (durations.length : ℤ) - 1 := hcond.2
  by_cases hc : 0 < s.clippedLength ∧
      s.clippedLength < durations.getD (s.durationIndex + 1).toNat 0
  · -- clipped pseudo-duration selected: phase A steps into phase B
    obtain ⟨hd0, hdc, hrc, hA4, hex, hDA⟩ := hInv.phaseA hc.1
    rw [rpStep_clip_eq durations s hc (not_lt.mpr hd0)]
    refine ⟨hInv.idx_lb, le_refl 0, ?_, ?_, ?_, ?_⟩
    · show s.completedTime + s.duration + s.clippedLength * ((s.remainingCount - 1 : ℤ) : ℚ) =
        s.completedTime + s.duration + |(-s.clippedLength)| * ((s.remainingCount - 1 : ℤ) : ℚ)
      rw [abs_neg, abs_of_pos hc.1]
    · intro h
      exact absurd h (lt_irrefl 0)
    · intro _
      refine ⟨rfl, ?_, hA4, ?_⟩
      · show s.remainingCount - 1 = (durations.length : ℤ) - 2 - s.durationIndex
        omega
      · show -(-s.clippedLength) < durations.getD (s.durationIndex + 1).toNat 0
        rw [neg_neg]
        exact hc.2
    · intro _ h2
      have h2' : (0 : ℚ) ≤ -s.clippedLength := h2
      exact absurd (lt_of_lt_of_le hc.1 (neg_nonneg.mp h2')) (lt_irrefl 0)
  · rcases lt_or_le s.duration 0 with hd | hd
    · -- phase B steps into phase C
      obtain ⟨hclip0, hrc, hBidx, hBnext⟩ := hInv.phaseB hd
      rw [rpStep_real_eq_neg durations s hc hd]
      have hlb := hInv.idx_lb
      have hvalid : (s.durationIndex + 1).toNat < durations.length := by omega
      have hdur' : 0 ≤ durations.getD (s.durationIndex + 1).toNat 0 :=
        hpos _ (getD_mem_of_lt hvalid)
      refine ⟨?_, ?_, rfl, ?_, ?_, ?_⟩
      · show (-1 : ℤ) ≤ s.durationIndex + 1
        omega
      · show (0 : ℚ) ≤ s.clippedLength
        exact hInv.clip_nonneg
      · intro h
        have h' : (0 : ℚ) < s.clippedLength := h
        rw [hclip0] at h'
        exact absurd h' (lt_irrefl 0)
      · intro h
        have h' : durations.getD (s.durationIndex + 1).toNat 0 < 0 := h
        exact absurd (lt_of_le_of_lt hdur' h') (lt_irrefl 0)
      · intro _ _
        refine ⟨?_, ?_, Or.inr ⟨?_, ?_, rfl⟩⟩
        · show s.remainingCount + 1 = (durations.length : ℤ) - (s.durationIndex + 1)
          omega
        · show s.durationIndex + 1 ≤ (durations.length : ℤ) - 1
          omega
        · show (0 : ℤ) ≤ s.durationIndex + 1
          omega
        · show s.durationIndex + 1 < (durations.length : ℤ)
          omega
    · rcases hInv.clip_nonneg.lt_or_eq with hclip | hclip
      · -- phase A, real selection: the next real duration is ≤ the clip
        have hnext_le : durations.getD (s.durationIndex + 1).toNat 0 ≤ s.clippedLength := by
          by_contra hx
          exact hc ⟨hclip, not_le.mp hx⟩
        obtain ⟨hd0, hdc, hrc, hA4, hex, hDA⟩ := hInv.phaseA hclip
        rw [rpStep_real_eq_nonneg durations s hc (not_lt.mpr hd)]
        have hlb := hInv.idx_lb
        have hlast : s.durationIndex + 1 < (durations.length : ℤ) - 1 := by
          by_contra hx
          push_neg at hx
          obtain ⟨d, hdmem, hdlt⟩ := hex
          have hlen1 : 1 ≤ durations.length := List.length_pos.mpr (List.ne_nil_of_mem hdmem)
          have hle := mem_le_getD_last hsorted hdmem
          have htoNat : (s.durationIndex + 1).toNat = durations.length - 1 := by omega
          rw [htoNat] at hnext_le
          linarith
        have hvalid : (s.durationIndex + 1).toNat < durations.length := by omega
        have hdur' : 0 ≤ durations.getD (s.durationIndex + 1).toNat 0 :=
          hpos _ (getD_mem_of_lt hvalid)
        refine ⟨?_, hInv.clip_nonneg, rfl, ?_, ?_, ?_⟩
        · show (-1 : ℤ) ≤ s.durationIndex + 1
          omega
        · intro _
          refine ⟨hdur', hnext_le, ?_, ?_, hex, Or.inr ⟨?_, ?_, rfl⟩⟩
          · show s.remainingCount - 1 = (durations.length : ℤ) - 1 - (s.durationIndex + 1)
            omega
          · show s.durationIndex + 1 ≤ (durations.length : ℤ) - 2
            omega
          · show (0 : ℤ) ≤ s.durationIndex + 1
            omega
          · show s.durationIndex + 1 < (durations.length : ℤ)
            omega
        · intro h
          have h' : durations.getD (s.durationIndex + 1).toNat 0 < 0 := h
          exact absurd (lt_of_le_of_lt hdur' h') (lt_irrefl 0)
        · intro h _
          have h' : s.clippedLength = 0 := h
          rw [h'] at hclip
          exact absurd hclip (lt_irrefl 0)
      · -- phase C steps within phase C
        obtain ⟨hrc, hCidx, hDA⟩ := hInv.phaseC hclip.symm hd
        rw [rpStep_real_eq_nonneg durations s hc (not_lt.mpr hd)]
        have hlb := hInv.idx_lb
        have hvalid : (s.durationIndex + 1).toNat < durations.length := by omega
        have hdur' : 0 ≤ durations.getD (s.durationIndex + 1).toNat 0 :=
          hpos _ (getD_mem_of_lt hvalid)
        refine ⟨?_, hInv.clip_nonneg, rfl, ?_, ?_, ?_⟩
        · show (-1 : ℤ) ≤ s.durationIndex + 1
          omega
        · intro h
          have h' : (0 : ℚ) < s.clippedLength := h
          rw [← hclip] at h'
          exact absurd h' (lt_irrefl 0)
        · intro h
          have h' : durations.getD (s.durationIndex + 1).toNat 0 < 0 := h
          exact absurd (lt_of_le_of_lt hdur' h') (lt_irrefl 0)
        · intro _ _
          refine ⟨?_, ?_, Or.inr ⟨?_, ?_, rfl⟩⟩
          · show s.remainingCount - 1 = (durations.length : ℤ) - (s.durationIndex + 1)
            omega
          · show s.durationIndex + 1 ≤ (durations.length : ℤ) - 1
            omega
          · show (0 : ℤ) ≤ s.durationIndex + 1
            omega
          · show s.durationIndex + 1 < (durations.length : ℤ)
            omega

theorem dur_le_next (durations : List ℚ) (hsorted : durations.Sorted (· ≤ ·))
    (hpos : ∀ d ∈ durations, 0 ≤ d) (s : RPState) (hDA : DurAt durations s)
    (hvalid : (s.durationIndex + 1).toNat < durations.length) :
    s.duration ≤ durations.getD (s.durationIndex + 1).toNat 0 := by
  rcases hDA with ⟨hidx, hdur⟩ | ⟨h0, hlt, hdur⟩
  · rw [hdur]
    exact hpos _ (getD_mem_of_lt hvalid)
  · rw [hdur]
    exact sorted_getD_le_getD hsorted (by omega) hvalid

/-- In phase A, when the walk selects the next real duration (so that duration
is at most the pending clip), the cursor stays at least one position short of
the last array slot: the clip is smaller than the last duration. -/
theorem phaseA_real_idx_lt (durations : List ℚ) (hsorted : durations.Sorted (· ≤ ·))
    (s : RPState) (hex : ∃ d ∈ durations, s.clippedLength < d)
    (hnext_le : durations.getD (s.durationIndex + 1).toNat 0 ≤ s.clippedLength)
    (hA4 : s.durationIndex ≤ (durations.length : ℤ) - 2) (hlb : -1 ≤ s.durationIndex) :
    s.durationIndex + 1 < (durations.length : ℤ) - 1 := by
  by_contra hx
  push_neg at hx
  obtain ⟨d, hdmem, hdlt⟩ := hex
  have hlen1 : 1 ≤ durations.length := List.length_pos.mpr (List.ne_nil_of_mem hdmem)
  have hle := mem_le_getD_last hsorted hdmem
  have htoNat : (s.durationIndex + 1).toNat = durations.length - 1 := by omega
  rw [htoNat] at hnext_le
  linarith

/-- Along the walk the (scaled) CDF value `cdfTime` never decreases. -/
theorem rpStep_cdf_mono (durations : List ℚ) (hsorted : durations.Sorted (· ≤ ·))
    (hpos : ∀ d ∈ durations, 0 ≤ d) (t : ℚ) (s : RPState)
    (hInv : RPInv durations s) (hcond : rpCond durations t s) :
    s.cdfTime ≤ (rpStep durations s).cdfTime := by
  have hidx : s.durationIndex < (durations.length : ℤ) - 1 := hcond.2
  have hlb := hInv.idx_lb
  have hvalid : (s.durationIndex + 1).toNat < durations.length := by omega
  rw [hInv.cdf_eq]
  by_cases hc : 0 < s.clippedLength ∧
      s.clippedLength < durations.getD (s.durationIndex + 1).toNat 0
  · obtain ⟨hd0, hdc, hrc, hA4, hex, hDA⟩ := hInv.phaseA hc.1
    rw [rpStep_clip_eq durations s hc (not_lt.mpr hd0), abs_of_nonneg hd0]
    show s.completedTime + s.duration * (s.remainingCount : ℚ) ≤
      s.completedTime + s.duration + s.clippedLength * ((s.remainingCount - 1 : ℤ) : ℚ)
    have h1 : (1 : ℤ) ≤ s.remainingCount := by omega
    have h1' : (1 : ℚ) ≤ (s.remainingCount : ℚ) := by exact_mod_cast h1
    have hmul : s.duration * ((s.remainingCount : ℚ) - 1) ≤
        s.clippedLength * ((s.remainingCount : ℚ) - 1) :=
      mul_le_mul_of_nonneg_right hdc (by linarith)
    have hring : s.duration * (s.remainingCount : ℚ) =
        s.duration * ((s.remainingCount : ℚ) - 1) + s.duration := by ring
    push_cast
    linarith
  · rcases lt_or_le s.duration 0 with hd | hd
    · obtain ⟨hclip0, hrc, hBidx, hBnext⟩ := hInv.phaseB hd
      rw [rpStep_real_eq_neg durations s hc hd, abs_of_neg hd,
        abs_of_nonneg (hpos _ (getD_mem_of_lt hvalid))]
      show s.completedTime + -s.duration * (s.remainingCount : ℚ) ≤
        s.completedTime + s.duration +
          durations.getD (s.durationIndex + 1).toNat 0 * ((s.remainingCount + 1 : ℤ) : ℚ)
      have h0 : (0 : ℤ) ≤ s.remainingCount := by omega
      have h0' : (0 : ℚ) ≤ (s.remainingCount : ℚ) := by exact_mod_cast h0
      have hmul : -s.duration * ((s.remainingCount : ℚ) + 1) ≤
          durations.getD (s.durationIndex + 1).toNat 0 * ((s.remainingCount : ℚ) + 1) :=
        mul_le_mul_of_nonneg_right (le_of_lt hBnext) (by linarith)
      have hring : -s.duration * ((s.remainingCount : ℚ) + 1) =
          -s.duration * (s.remainingCount : ℚ) + -s.duration := by ring
      push_cast
      linarith
    · rw [rpStep_real_eq_nonneg durations s hc (not_lt.mpr hd), abs_of_nonneg hd,
        abs_of_nonneg (hpos _ (getD_mem_of_lt hvalid))]
      show s.completedTime + s.duration * (s.remainingCount : ℚ) ≤
        s.completedTime + s.duration +
          durations.getD (s.durationIndex + 1).toNat 0 * ((s.remainingCount - 1 : ℤ) : ℚ)
      have h1 : (1 : ℤ) ≤ s.remainingCount := by
        rcases hInv.clip_nonneg.lt_or_eq with hclip | hclip
        · obtain ⟨-, -, hrc, hA4, -, -⟩ := hInv.phaseA hclip
          omega
        · obtain ⟨hrc, -, -⟩ := hInv.phaseC hclip.symm hd
          omega
      have hDA : DurAt durations s := by
        rcases hInv.clip_nonneg.lt_or_eq with hclip | hclip
        · exact (hInv.phaseA hclip).2.2.2.2.2
        · exact (hInv.phaseC hclip.symm hd).2.2
      have hnext := dur_le_next durations hsorted hpos s hDA hvalid
      have h1' : (1 : ℚ) ≤ (s.remainingCount : ℚ) := by exact_mod_cast h1
      have hmul : s.duration * ((s.remainingCount : ℚ) - 1) ≤
          durations.getD (s.durationIndex + 1).toNat 0 * ((s.remainingCount : ℚ) - 1) :=
        mul_le_mul_of_nonneg_right hnext (by linarith)
      have hring : s.duration * (s.remainingCount : ℚ) =
          s.duration * ((s.remainingCount : ℚ) - 1) + s.duration := by ring
      push_cast
      linarith

/-! ### The value returned for one percentile -/

theorem rpTime_eq_rpVal (t : ℚ) (s : RPState) :
    rpTime t s = rpVal t s + BASE_RESPONSE_LATENCY := rfl

theorem rpVal_nonneg (t : ℚ) (s : RPState) : 0 ≤ rpVal t s := le_max_left 0 _

theorem rpVal_mono_target (t t' : ℚ) (s : RPState) (h : t ≤ t')
    (hrc : 0 ≤ s.remainingCount) : rpVal t s ≤ rpVal t' s := by
  rcases hrc.lt_or_eq with h1 | h1
  · have h1' : (0 : ℚ) < (s.remainingCount : ℚ) := by exact_mod_cast h1
    exact max_le_max (le_refl 0) ((div_le_div_iff_of_pos_right h1').mpr (by linarith))
  · unfold rpVal
    rw [← h1]
    simp

/-- Crossing one segment boundary of the piecewise-linear CDF does not
decrease the quantile value at the boundary target `s.cdfTime` — except in the
transient `Brc0` state, excluded here and handled by `brc0_val_two_step`. -/
theorem rpVal_cdf_step (durations : List ℚ) (hsorted : durations.Sorted (· ≤ ·))
    (hpos : ∀ d ∈ durations, 0 ≤ d) (t : ℚ) (s : RPState)
    (hInv : RPInv durations s) (hcond : rpCond durations t s)
    (hb : ¬ Brc0 (rpStep durations s)) :
    rpVal s.cdfTime s ≤ rpVal s.cdfTime (rpStep durations s) := by
  have hidx : s.durationIndex < (durations.length : ℤ) - 1 := hcond.2
  have hlb := hInv.idx_lb
  have hvalid : (s.durationIndex + 1).toNat < durations.length := by omega
  rcases lt_or_le s.duration 0 with hd | hd
  · -- phase B: both sides evaluate to `-duration` (or the left side to `0`)
    obtain ⟨hclip0, hrc, hBidx, hBnext⟩ := hInv.phaseB hd
    have hc : ¬(0 < s.clippedLength ∧
        s.clippedLength < durations.getD (s.durationIndex + 1).toNat 0) := by
      rintro ⟨h1, -⟩
      rw [hclip0] at h1
      exact absurd h1 (lt_irrefl 0)
    rw [rpStep_real_eq_neg durations s hc hd]
    rcases (show (0 : ℤ) ≤ s.remainingCount by omega).lt_or_eq with h0 | h0
    · have hrcQ : ((s.remainingCount : ℚ)) ≠ 0 := by
        exact_mod_cast (by omega : s.remainingCount ≠ 0)
      have hrc1Q : ((s.remainingCount : ℚ) + 1) ≠ 0 := by
        have h2 : (0 : ℚ) < (s.remainingCount : ℚ) := by exact_mod_cast h0
        exact ne_of_gt (by linarith)
      have e1 : (s.cdfTime - s.completedTime) / (s.remainingCount : ℚ) = -s.duration := by
        rw [hInv.cdf_eq, abs_of_neg hd, div_eq_iff hrcQ]
        ring
      have e2 : (s.cdfTime - (s.completedTime + s.duration)) / ((s.remainingCount : ℚ) + 1) =
          -s.duration := by
        rw [hInv.cdf_eq, abs_of_neg hd, div_eq_iff hrc1Q]
        ring
      show max 0 ((s.cdfTime - s.completedTime) / (s.remainingCount : ℚ)) ≤
        max 0 ((s.cdfTime - (s.completedTime + s.duration)) / ((s.remainingCount + 1 : ℤ) : ℚ))
      rw [e1]
      push_cast
      rw [e2]
    · show max 0 ((s.cdfTime - s.completedTime) / (s.remainingCount : ℚ)) ≤
        max 0 ((s.cdfTime - (s.completedTime + s.duration)) / ((s.remainingCount + 1 : ℤ) : ℚ))
      rw [← h0]
      simp only [Int.cast_zero, div_zero, max_self]
      exact le_max_left 0 _
  · -- phases A and C: both sides evaluate to `duration`
    have habs : |s.duration| = s.duration := abs_of_nonneg hd
    have hrc2 : (2 : ℤ) ≤ s.remainingCount := by
      by_cases hc : 0 < s.clippedLength ∧
          s.clippedLength < durations.getD (s.durationIndex + 1).toNat 0
      · obtain ⟨hd0, hdc, hrc, hA4, hex, hDA⟩ := hInv.phaseA hc.1
        have hchar := rpStep_clip_eq durations s hc (not_lt.mpr hd0)
        rw [hchar] at hb
        have h1 : s.remainingCount - 1 ≠ 0 := by
          intro h0
          exact hb ⟨show -s.clippedLength < 0 by linarith [hc.1], h0⟩
        omega
      · rcases hInv.clip_nonneg.lt_or_eq with hclip | hclip
        · obtain ⟨hd0, hdc, hrc, hA4, hex, hDA⟩ := hInv.phaseA hclip
          have hnext_le : durations.getD (s.durationIndex + 1).toNat 0 ≤ s.clippedLength := by
            by_contra hx
            exact hc ⟨hclip, not_le.mp hx⟩
          have := phaseA_real_idx_lt durations hsorted s hex hnext_le hA4 hlb
          omega
        · obtain ⟨hrc, hCidx, hDA⟩ := hInv.phaseC hclip.symm hd
          omega
    have hu : (rpStep durations s).completedTime = s.completedTime + s.duration ∧
        (rpStep durations s).remainingCount = s.remainingCount - 1 := by
      by_cases hc : 0 < s.clippedLength ∧
          s.clippedLength < durations.getD (s.durationIndex + 1).toNat 0
      · rw [rpStep_clip_eq durations s hc (not_lt.mpr hd)]
        exact ⟨rfl, rfl⟩
      · rw [rpStep_real_eq_nonneg durations s hc (not_lt.mpr hd)]
        exact ⟨rfl, rfl⟩
    have hrcQ : ((s.remainingCount : ℚ)) ≠ 0 := by
      exact_mod_cast (by omega : s.remainingCount ≠ 0)
    have hrc1Q : ((s.remainingCount : ℚ) - 1) ≠ 0 := by
      have h2 : (1 : ℚ) < (s.remainingCount : ℚ) := by
        exact_mod_cast (by omega : (1 : ℤ) < s.remainingCount)
      exact ne_of_gt (by linarith)
    have e1 : (s.cdfTime - s.completedTime) / (s.remainingCount : ℚ) = s.duration := by
      rw [hInv.cdf_eq, habs, div_eq_iff hrcQ]
      ring
    have e2 : (s.cdfTime - (s.completedTime + s.duration)) / ((s.remainingCount : ℚ) - 1) =
        s.duration := by
      rw [hInv.cdf_eq, habs, div_eq_iff hrc1Q]
      ring
    unfold rpVal
    rw [hu.1, hu.2, e1]
    push_cast
    rw [e2]

/-- When one iteration lands in the transient `Brc0` state, the step was the
selection of the clipped pseudo-duration with `remainingCount = 1` in phase A. -/
theorem brc0_shape (durations : List ℚ) (t : ℚ) (s : RPState)
    (hInv : RPInv durations s) (hcond : rpCond durations t s)
    (hpos : ∀ d ∈ durations, 0 ≤ d)
    (hb : Brc0 (rpStep durations s)) :
    (0 < s.clippedLength ∧
      s.clippedLength < durations.getD (s.durationIndex + 1).toNat 0) ∧
    s.remainingCount = 1 ∧ 0 ≤ s.duration := by
  have hidx : s.durationIndex < (durations.length : ℤ) - 1 := hcond.2
  have hlb := hInv.idx_lb
  have hvalid : (s.durationIndex + 1).toNat < durations.length := by omega
  by_cases hc : 0 < s.clippedLength ∧
      s.clippedLength < durations.getD (s.durationIndex + 1).toNat 0
  · obtain ⟨hd0, hdc, hrc, hA4, hex, hDA⟩ := hInv.phaseA hc.1
    rw [rpStep_clip_eq durations s hc (not_lt.mpr hd0)] at hb
    have h0 : s.remainingCount - 1 = 0 := hb.2
    exact ⟨hc, by omega, hd0⟩
  · exfalso
    have hdnext : 0 ≤ durations.getD (s.durationIndex + 1).toNat 0 :=
      hpos _ (getD_mem_of_lt hvalid)
    rcases lt_or_le s.duration 0 with hd | hd
    · rw [rpStep_real_eq_neg durations s hc hd] at hb
      exact absurd (lt_of_le_of_lt hdnext hb.1) (lt_irrefl 0)
    · rw [rpStep_real_eq_nonneg durations s hc (not_lt.mpr hd)] at hb
      exact absurd (lt_of_le_of_lt hdnext hb.1) (lt_irrefl 0)

/-- In the transient state the scaled CDF value is unchanged, so the loop
guard still holds and the walk immediately moves on. -/
theorem brc0_cdf_eq (durations : List ℚ) (t : ℚ) (s : RPState)
    (hInv : RPInv durations s) (hcond : rpCond durations t s)
    (hpos : ∀ d ∈ durations, 0 ≤ d)
    (hb : Brc0 (rpStep durations s)) :
    (rpStep durations s).cdfTime = s.cdfTime := by
  obtain ⟨hc, hrc1, hd0⟩ := brc0_shape durations t s hInv hcond hpos hb
  rw [rpStep_clip_eq durations s hc (not_lt.mpr hd0), hInv.cdf_eq, abs_of_nonneg hd0, hrc1]
  show s.completedTime + s.duration + s.clippedLength * ((1 - 1 : ℤ) : ℚ) =
    s.completedTime + s.duration * ((1 : ℤ) : ℚ)
  push_cast
  ring

theorem brc0_cond (durations : List ℚ) (t : ℚ) (s : RPState)
    (hInv : RPInv durations s) (hcond : rpCond durations t s)
    (hpos : ∀ d ∈ durations, 0 ≤ d)
    (hb : Brc0 (rpStep durations s)) :
    rpCond durations t (rpStep durations s) := by
  obtain ⟨hc, hrc1, hd0⟩ := brc0_shape durations t s hInv hcond hpos hb
  constructor
  · rw [brc0_cdf_eq durations t s hInv hcond hpos hb]
    exact hcond.1
  · rw [rpStep_clip_eq durations s hc (not_lt.mpr hd0)]
    exact hcond.2

/-- Stepping across the transient state and the following real selection does
not decrease the quantile value at the boundary target. -/
theorem brc0_val_two_step (durations : List ℚ) (t : ℚ) (s : RPState)
    (hInv : RPInv durations s) (hcond : rpCond durations t s)
    (hpos : ∀ d ∈ durations, 0 ≤ d)
    (hb : Brc0 (rpStep durations s)) :
    rpVal s.cdfTime s ≤ rpVal s.cdfTime (rpStep durations (rpStep durations s)) := by
  obtain ⟨hc, hrc1, hd0⟩ := brc0_shape durations t s hInv hcond hpos hb
  obtain ⟨hdd0, hdc, hrc, hA4, hex, hDA⟩ := hInv.phaseA hc.1
  rw [rpStep_clip_eq durations s hc (not_lt.mpr hd0)]
  have hc2 : ¬((0 : ℚ) < 0 ∧ (0 : ℚ) < durations.getD (s.durationIndex + 1).toNat 0) := by
    rintro ⟨h1, -⟩
    exact absurd h1 (lt_irrefl 0)
  rw [show rpStep durations
      { completedTime := s.completedTime + s.duration
        duration := -s.clippedLength
        cdfTime := s.completedTime + s.duration +
          s.clippedLength * ((s.remainingCount - 1 : ℤ) : ℚ)
        durationIndex := s.durationIndex
        remainingCount := s.remainingCount - 1
        clippedLength := 0 } =
      { completedTime := s.completedTime + s.duration + -s.clippedLength
        duration := durations.getD (s.durationIndex + 1).toNat 0
        cdfTime := s.completedTime + s.duration + -s.clippedLength +
          |durations.getD (s.durationIndex + 1).toNat 0| *
            ((s.remainingCount - 1 + 1 : ℤ) : ℚ)
        durationIndex := s.durationIndex + 1
        remainingCount := s.remainingCount - 1 + 1
        clippedLength := 0 } from by
    apply rpStep_real_eq_neg durations _ (by exact hc2) (by exact neg_neg_of_pos hc.1)]
  have e1 : (s.cdfTime - s.completedTime) / (s.remainingCount : ℚ) = s.duration := by
    rw [hInv.cdf_eq, abs_of_nonneg hd0, hrc1]
    norm_num
  have e2 : (s.cdfTime - (s.completedTime + s.duration + -s.clippedLength)) /
      ((s.remainingCount - 1 + 1 : ℤ) : ℚ) = s.clippedLength := by
    rw [hInv.cdf_eq, abs_of_nonneg hd0, hrc1]
    norm_num
  show max 0 ((s.cdfTime - s.completedTime) / (s.remainingCount : ℚ)) ≤
    max 0 ((s.cdfTime - (s.completedTime + s.duration + -s.clippedLength)) /
      ((s.remainingCount - 1 + 1 : ℤ) : ℚ))
  rw [e1, e2]
  exact max_le_max (le_refl 0) hdc

/-! ### Loop-level consequences -/

theorem rpLoop_inv (durations : List ℚ) (hsorted : durations.Sorted (· ≤ ·))
    (hpos : ∀ d ∈ durations, 0 ≤ d) (t : ℚ) :
    ∀ fuel s, RPInv durations s → RPInv durations (rpLoop durations t fuel s) := by
  intro fuel
  induction fuel with
  | zero => intro s h; exact h
  | succ n ih =>
    intro s h
    by_cases hc : rpCond durations t s
    · rw [rpLoop_succ_of_cond _ _ _ _ hc]
      exact ih _ (rpStep_inv durations hsorted hpos t s h hc)
    · rw [rpLoop_eq_of_not_cond _ _ _ _ hc]
      exact h

/-- At every exit of the `while` loop `remainingCount` is at least one, so the
final division of the percentile's latency is by a positive count. -/
theorem rpLoop_rc_pos (durations : List ℚ) (hsorted : durations.Sorted (· ≤ ·))
    (hpos : ∀ d ∈ durations, 0 ≤ d) (t : ℚ) :
    ∀ fuel s, RPInv durations s → (Brc0 s → s.cdfTime < t) →
      rpMeasure durations s ≤ fuel →
      1 ≤ (rpLoop durations t fuel s).remainingCount := by
  intro fuel
  induction fuel with
  | zero =>
    intro s hInv hB hf
    show 1 ≤ s.remainingCount
    by_cases hb : Brc0 s
    · exfalso
      obtain ⟨hclip0, hrc, hBidx, -⟩ := hInv.phaseB hb.1
      simp only [rpMeasure] at hf
      omega
    · exact hInv.rc_pos_of_not_brc0 hb
  | succ n ih =>
    intro s hInv hB hf
    by_cases hc : rpCond durations t s
    · rw [rpLoop_succ_of_cond _ _ _ _ hc]
      refine ih _ (rpStep_inv durations hsorted hpos t s hInv hc) ?_ ?_
      · intro hb
        rw [brc0_cdf_eq durations t s hInv hc hpos hb]
        exact hc.1
      · have := rpMeasure_step_lt durations t s hc
        omega
    · rw [rpLoop_eq_of_not_cond _ _ _ _ hc]
      by_cases hb : Brc0 s
      · exfalso
        obtain ⟨hclip0, hrc, hBidx, -⟩ := hInv.phaseB hb.1
        exact hc ⟨hB hb, by omega⟩
      · exact hInv.rc_pos_of_not_brc0 hb

/-- Core monotonicity of the CDF inversion: running the walk towards a larger
target from a state whose CDF already covers `w` cannot produce a smaller
clamped quantile value than the one `w` has in the current state. -/
theorem rpLoop_val_mono (durations : List ℚ) (hsorted : durations.Sorted (· ≤ ·))
    (hpos : ∀ d ∈ durations, 0 ≤ d) :
    ∀ fuel s w t', RPInv durations s → w ≤ s.cdfTime → w ≤ t' →
      rpMeasure durations s ≤ fuel →
      rpVal w s ≤ rpVal t' (rpLoop durations t' fuel s) := by
  intro fuel
  induction fuel using Nat.strong_induction_on with
  | _ fuel ih =>
    intro s w t' hInv hw hwt hf
    by_cases hc : rpCond durations t' s
    · have hμ : 1 ≤ rpMeasure durations s := by
        have h2 : s.durationIndex < (durations.length : ℤ) - 1 := hc.2
        simp only [rpMeasure]
        omega
      obtain ⟨n, rfl⟩ : ∃ n, fuel = n + 1 := ⟨fuel - 1, by omega⟩
      rw [rpLoop_succ_of_cond _ _ _ _ hc]
      by_cases hb : Brc0 (rpStep durations s)
      · have hcondu := brc0_cond durations t' s hInv hc hpos hb
        have hInvu := rpStep_inv durations hsorted hpos t' s hInv hc
        have hμu : rpMeasure durations (rpStep durations s) ≤ n := by
          have := rpMeasure_step_lt durations t' s hc
          omega
        have hμu1 : 1 ≤ rpMeasure durations (rpStep durations s) := by
          have h2 : (rpStep durations s).durationIndex < (durations.length : ℤ) - 1 :=
            hcondu.2
          simp only [rpMeasure]
          omega
        obtain ⟨m, rfl⟩ : ∃ m, n = m + 1 := ⟨n - 1, by omega⟩
        rw [rpLoop_succ_of_cond _ _ _ _ hcondu]
        have hInvv := rpStep_inv durations hsorted hpos t' _ hInvu hcondu
        have hμv : rpMeasure durations (rpStep durations (rpStep durations s)) ≤ m := by
          have := rpMeasure_step_lt durations t' _ hcondu
          omega
        have hcdfu : (rpStep durations s).cdfTime = s.cdfTime :=
          brc0_cdf_eq durations t' s hInv hc hpos hb
        have hcdfv : s.cdfTime ≤ (rpStep durations (rpStep durations s)).cdfTime := by
          rw [← hcdfu]
          exact rpStep_cdf_mono durations hsorted hpos t' _ hInvu hcondu
        have hval : rpVal w s ≤ rpVal s.cdfTime (rpStep durations (rpStep durations s)) :=
          le_trans (rpVal_mono_target w s.cdfTime s hw hInv.rc_nonneg)
            (brc0_val_two_step durations t' s hInv hc hpos hb)
        exact le_trans hval
          (ih m (by omega) _ s.cdfTime t' hInvv hcdfv (le_of_lt hc.1) hμv)
      · have hInvu := rpStep_inv durations hsorted hpos t' s hInv hc
        have hμu : rpMeasure durations (rpStep durations s) ≤ n := by
          have := rpMeasure_step_lt durations t' s hc
          omega
        have hcdfu : s.cdfTime ≤ (rpStep durations s).cdfTime :=
          rpStep_cdf_mono durations hsorted hpos t' s hInv hc
        have hval : rpVal w s ≤ rpVal s.cdfTime (rpStep durations s) :=
          le_trans (rpVal_mono_target w s.cdfTime s hw hInv.rc_nonneg)
            (rpVal_cdf_step durations hsorted hpos t' s hInv hc hb)
        exact le_trans hval
          (ih n (by omega) _ s.cdfTime t' hInvu hcdfu (le_of_lt hc.1) hμu)
    · rw [rpLoop_eq_of_not_cond _ _ _ _ hc]
      exact rpVal_mono_target w t' s hwt hInv.rc_nonneg

theorem rpMeasure_le_fuel (durations : List ℚ) (s : RPState)
    (h : -1 ≤ s.durationIndex) : rpMeasure durations s ≤ rpFuel durations := by
  simp only [rpMeasure, rpFuel]
  have h2 : ((durations.length : ℤ) - 1 - s.durationIndex).toNat ≤ durations.length + 1 := by
    omega
  rcases le_or_lt s.clippedLength 0 with h1 | h1
  · rw [if_neg (not_lt.mpr h1)]
    omega
  · rw [if_pos h1]
    omega

/-- The latency reported for a percentile whose walk already ended is not
larger than the latency reported after walking on towards a further target. -/
theorem rpLink (durations : List ℚ) (hsorted : durations.Sorted (· ≤ ·))
    (hpos : ∀ d ∈ durations, 0 ≤ d) (t₁ t₂ : ℚ) (s : RPState)
    (hInv : RPInv durations s) (hnc : ¬ rpCond durations t₁ s) (ht : t₁ ≤ t₂) :
    rpVal t₁ s ≤ rpVal t₂ (rpLoop durations t₂ (rpFuel durations) s) := by
  by_cases hidx : s.durationIndex < (durations.length : ℤ) - 1
  · have hcdf : t₁ ≤ s.cdfTime := by
      by_contra hx
      exact hnc ⟨not_le.mp hx, hidx⟩
    exact rpLoop_val_mono durations hsorted hpos (rpFuel durations) s t₁ t₂ hInv hcdf ht
      (rpMeasure_le_fuel durations s hInv.idx_lb)
  · have hnc2 : ¬ rpCond durations t₂ s := fun hcon => hidx hcon.2
    rw [rpLoop_eq_of_not_cond _ _ _ _ hnc2]
    exact rpVal_mono_target t₁ t₂ s ht hInv.rc_nonneg

/-! ### The percentile loop -/

theorem rpGo_map_fst (durations : List ℚ) (totalTime : ℚ) :
    ∀ ps s, (rpGo durations totalTime ps s).map Prod.fst = ps := by
  intro ps
  induction ps with
  | nil => intro s; rfl
  | cons p ps ih => intro s; simp only [rpGo, List.map_cons, ih]

theorem rpGo_time_ge (durations : List ℚ) (totalTime : ℚ) :
    ∀ ps s, ∀ pr ∈ rpGo durations totalTime ps s, BASE_RESPONSE_LATENCY ≤ pr.2 := by
  intro ps
  induction ps with
  | nil => intro s pr h; simp [rpGo] at h
  | cons p ps ih =>
    intro s pr h
    simp only [rpGo, List.mem_cons] at h
    rcases h with rfl | h
    · show BASE_RESPONSE_LATENCY ≤ rpTime _ _
      rw [rpTime_eq_rpVal]
      have := rpVal_nonneg (p * totalTime)
        (rpLoop durations (p * totalTime) (rpFuel durations) s)
      linarith
    · exact ih _ pr h

theorem rpGo_chain (durations : List ℚ) (hsorted : durations.Sorted (· ≤ ·))
    (hpos : ∀ d ∈ durations, 0 ≤ d) (totalTime : ℚ) (hT : 0 ≤ totalTime) :
    ∀ ps s, RPInv durations s → ps.Chain' (· ≤ ·) →
      ((rpGo durations totalTime ps s).map Prod.snd).Chain' (· ≤ ·) := by
  intro ps
  induction ps with
  | nil => intro s _ _; simp [rpGo]
  | cons p ps ih =>
    intro s hInv hchain
    cases ps with
    | nil => simp [rpGo]
    | cons q qs =>
      have hInv1 : RPInv durations (rpLoop durations (p * totalTime) (rpFuel durations) s) :=
        rpLoop_inv durations hsorted hpos (p * totalTime) (rpFuel durations) s hInv
      have hnc : ¬ rpCond durations (p * totalTime)
          (rpLoop durations (p * totalTime) (rpFuel durations) s) :=
        rpLoop_not_cond durations (p * totalTime) (rpFuel durations) s
          (rpMeasure_le_fuel durations s hInv.idx_lb)
      obtain ⟨hpq, hchain2⟩ := List.chain'_cons.mp hchain
      have hlink := rpLink durations hsorted hpos (p * totalTime) (q * totalTime)
        (rpLoop durations (p * totalTime) (rpFuel durations) s) hInv1 hnc
        (mul_le_mul_of_nonneg_right hpq hT)
      have htail := ih (rpLoop durations (p * totalTime) (rpFuel durations) s) hInv1 hchain2
      simp only [rpGo, List.map_cons] at htail ⊢
      rw [List.chain'_cons]
      refine ⟨?_, htail⟩
      rw [rpTime_eq_rpVal, rpTime_eq_rpVal]
      linarith

theorem rpGoChecked_eq (durations : List ℚ) (hsorted : durations.Sorted (· ≤ ·))
    (hpos : ∀ d ∈ durations, 0 ≤ d) (totalTime : ℚ) :
    ∀ ps s, RPInv durations s → ¬ Brc0 s →
      rpGoChecked durations totalTime ps s = some (rpGo durations totalTime ps s) := by
  intro ps
  induction ps with
  | nil => intro s _ _; rfl
  | cons p ps ih =>
    intro s hInv hb
    have hrc := rpLoop_rc_pos durations hsorted hpos (p * totalTime) (rpFuel durations) s hInv
      (fun h => absurd h hb) (rpMeasure_le_fuel durations s hInv.idx_lb)
    have hInv1 := rpLoop_inv durations hsorted hpos (p * totalTime) (rpFuel durations) s hInv
    have hb1 : ¬ Brc0 (rpLoop durations (p * totalTime) (rpFuel durations) s) := by
      rintro ⟨-, h0⟩
      omega
    simp only [rpGoChecked, rpGo]
    rw [if_neg (by omega :
      ¬ (rpLoop durations (p * totalTime) (rpFuel durations) s).remainingCount = 0)]
    rw [ih _ hInv1 hb1]
    rfl

/-! ### Window-sampler characterisations -/

theorem sliceStep_of_discarded (tsBase startTime endTime : ℚ) (acc : List ℚ × ℚ)
    (e : TraceEvent) (h : sliceDiscarded tsBase startTime endTime e) :
    sliceStep tsBase startTime endTime acc e = acc := by
  have h' : (e.ts - tsBase) / 1000 + e.dur.getD 0 / 1000 ≤ startTime ∨
      (e.ts - tsBase) / 1000 ≥ endTime := h
  simp only [sliceStep]
  rw [if_pos h']

theorem sliceStep_snd_of_not_clipped (tsBase startTime endTime : ℚ) (acc : List ℚ × ℚ)
    (e : TraceEvent) (h : ¬ sliceEndClipped tsBase startTime endTime e) :
    (sliceStep tsBase startTime endTime acc e).2 = acc.2 := by
  by_cases hdisc : sliceDiscarded tsBase startTime endTime e
  · rw [sliceStep_of_discarded tsBase startTime endTime acc e hdisc]
  · have hdisc' : ¬((e.ts - tsBase) / 1000 + e.dur.getD 0 / 1000 ≤ startTime ∨
        (e.ts - tsBase) / 1000 ≥ endTime) := hdisc
    have hend : ¬ ((e.ts - tsBase) / 1000 + e.dur.getD 0 / 1000 > endTime) :=
      fun hx => h ⟨hdisc, hx⟩
    simp only [sliceStep]
    rw [if_neg hdisc', if_neg hend]

theorem sliceStep_snd_of_clipped (tsBase startTime endTime : ℚ) (acc : List ℚ × ℚ)
    (e : TraceEvent) (h : sliceEndClipped tsBase startTime endTime e) :
    (sliceStep tsBase startTime endTime acc e).2 =
      sliceClipOf tsBase startTime endTime e := by
  have hdisc' : ¬((e.ts - tsBase) / 1000 + e.dur.getD 0 / 1000 ≤ startTime ∨
      (e.ts - tsBase) / 1000 ≥ endTime) := h.1
  have hend' : (e.ts - tsBase) / 1000 + e.dur.getD 0 / 1000 > endTime := h.2
  simp only [sliceStep, sliceClipOf]
  rw [if_neg hdisc', if_pos hend']

theorem sliceFold_clippedLength (tsBase startTime endTime : ℚ) :
    ∀ (events : List TraceEvent) (acc : List ℚ × ℚ),
      (events.foldl (sliceStep tsBase startTime endTime) acc).2 =
        ((events.filter
            (fun ev => decide (sliceEndClipped tsBase startTime endTime ev))).getLast?.elim
          acc.2 (sliceClipOf tsBase startTime endTime)) := by
  intro events
  induction events using List.reverseRecOn with
  | nil => intro acc; rfl
  | append_singleton evs ev ih =>
    intro acc
    rw [List.foldl_append, List.filter_append]
    simp only [List.foldl_cons, List.foldl_nil]
    by_cases hP : sliceEndClipped tsBase startTime endTime ev
    · rw [sliceStep_snd_of_clipped tsBase startTime endTime _ ev hP]
      have : List.filter (fun ev => decide (sliceEndClipped tsBase startTime endTime ev))
          [ev] = [ev] := by
        simp [List.filter, hP]
      rw [this, List.getLast?_concat]
      rfl
    · rw [sliceStep_snd_of_not_clipped tsBase startTime endTime _ ev hP]
      have : List.filter (fun ev => decide (sliceEndClipped tsBase startTime endTime ev))
          [ev] = [] := by
        simp [List.filter, hP]
      rw [this, List.append_nil]
      exact ih acc

/-! ### Shape of `getRiskToResponsiveness` results -/

/-- On success the result triple always carries the in-place-sorted
`traceEvents` and the used percentile list (the caller's array sorted
ascending, or the default), and the percentile list fed to the estimator is
that same list. -/
theorem getRisk_shape (trace : List TraceEvent) (s? e? : Option ℚ)
    (ps? : Option (List ℚ)) :
    getRiskToResponsiveness trace s? e? ps? = none ∨
    ∃ durations clippedLength totalTime,
      getRiskToResponsiveness trace s? e? ps? =
        some (riskPercentiles durations totalTime
            (ps?.elim defaultPercentiles (fun ps => ps.insertionSort (· ≤ ·))) clippedLength,
          trace.insertionSort (fun a b => a.ts ≤ b.ts),
          ps?.elim defaultPercentiles (fun ps => ps.insertionSort (· ≤ ·))) := by
  simp only [getRiskToResponsiveness]
  cases hE : (trace.insertionSort (fun a b => a.ts ≤ b.ts)).filter
      (fun e => decide (e.ts ≠ 0)) with
  | nil => left; rfl
  | cons e0 rest =>
    cases hF : (trace.insertionSort (fun a b => a.ts ≤ b.ts)).find?
        (fun e => e.name == "TracingStartedInPage") with
    | none => left; rfl
    | some startEvent =>
      right
      refine ⟨(sliceDurations e0.ts (s?.getD 0)
          (e?.getD (((rest.getLastD e0).ts - e0.ts) / 1000))
          ((trace.insertionSort (fun a b => a.ts ≤ b.ts)).filter
            (fun e => e.pid == startEvent.pid && e.tid == startEvent.tid &&
              e.name == "MessageLoop::RunTask"))).1.insertionSort (· ≤ ·),
        (sliceDurations e0.ts (s?.getD 0)
          (e?.getD (((rest.getLastD e0).ts - e0.ts) / 1000))
          ((trace.insertionSort (fun a b => a.ts ≤ b.ts)).filter
            (fun e => e.pid == startEvent.pid && e.tid == startEvent.tid &&
              e.name == "MessageLoop::RunTask"))).2,
        e?.getD (((rest.getLastD e0).ts - e0.ts) / 1000) - s?.getD 0, ?_⟩
      cases ps? with
      | none => rfl
      | some ps => rfl

/-! ### Concrete evaluations on `testTrace` (shared by several witnesses) -/

theorem getRisk_testTrace_default_eval :
    getRiskToResponsiveness testTrace none none none =
      some ([(1/2, 43/2), (3/4, 135/4), (9/10, 411/10), (99/100, 4551/100), (1, 46)],
        testTrace, defaultPercentiles) := by
  rw [getRisk_testTrace]
  have hslice : sliceDurations 1000 0 49 [evTask1, evTask2] = ([30], 0) := by
    norm_num [sliceDurations, sliceStep, evTask1, evTask2]
  simp only [Option.getD, Option.elim, hslice]
  norm_num [List.insertionSort, List.orderedInsert, defaultPercentiles,
    riskPercentiles, rpGo, rpLoop, rpStep, rpInit, rpTime, rpCond, rpFuel,
    BASE_RESPONSE_LATENCY]

theorem getRisk_testTrace_inverted_eval :
    getRiskToResponsiveness testTrace (some 50) (some 10) (some [1/2]) =
      some ([(1/2, 36)], testTrace, [1/2]) := by
  rw [getRisk_testTrace]
  have hslice : sliceDurations 1000 50 10 [evTask1, evTask2] = ([], 0) := by
    norm_num [sliceDurations, sliceStep, evTask1, evTask2]
  simp only [Option.getD, Option.elim, hslice]
  norm_num [List.insertionSort, List.orderedInsert,
    riskPercentiles, rpGo, rpLoop, rpStep, rpInit, rpTime, rpCond, rpFuel,
    BASE_RESPONSE_LATENCY]

theorem getRisk_testTrace_unsorted_eval :
    getRiskToResponsiveness testTrace none none (some [9/10, 1/2]) =
      some ([(1/2, 43/2), (9/10, 411/10)], testTrace, [1/2, 9/10]) := by
  rw [getRisk_testTrace]
  have hslice : sliceDurations 1000 0 49 [evTask1, evTask2] = ([30], 0) := by
    norm_num [sliceDurations, sliceStep, evTask1, evTask2]
  simp only [Option.getD, Option.elim, hslice]
  norm_num [List.insertionSort, List.orderedInsert,
    riskPercentiles, rpGo, rpLoop, rpStep, rpInit, rpTime, rpCond, rpFuel,
    BASE_RESPONSE_LATENCY]

/-! ### The walk on an empty duration list never iterates -/

theorem rpGo_empty (totalTime : ℚ) :
    ∀ ps (s : RPState), s.durationIndex = -1 →
      rpGo [] totalTime ps s = ps.map (fun p => (p, rpTime (p * totalTime) s)) := by
  intro ps
  induction ps with
  | nil => intro s h; rfl
  | cons p ps ih =>
    intro s h
    have hnc : ¬ rpCond [] (p * totalTime) s := by
      rintro ⟨-, h2⟩
      rw [h] at h2
      simp only [List.length_nil, Nat.cast_zero] at h2
      omega
    simp only [rpGo, rpLoop_eq_of_not_cond _ _ _ _ hnc, List.map_cons]
    rw [ih s h]

/-! ### Radicands of the log-normal fit at `median = 100`, `falloff = 50` -/

theorem log_half_eq : Real.log ((50 : ℝ) / 100) = -Real.log 2 := by
  rw [show (50 : ℝ) / 100 = 2⁻¹ by norm_num, Real.log_inv]

theorem logNormal_100_50_inner :
    0 ≤ (Real.log ((50 : ℝ) / 100) - 3) * (Real.log ((50 : ℝ) / 100) - 3) - 8 := by
  rw [log_half_eq]
  have hl2 : (0 : ℝ) ≤ Real.log 2 := Real.log_nonneg (by norm_num)
  nlinarith

theorem logNormal_100_50_outer :
    0 ≤ 1 - 3 * Real.log ((50 : ℝ) / 100) -
      Real.sqrt ((Real.log ((50 : ℝ) / 100) - 3) * (Real.log ((50 : ℝ) / 100) - 3) - 8) := by
  rw [log_half_eq]
  have hl2 : (0 : ℝ) ≤ Real.log 2 := Real.log_nonneg (by norm_num)
  have h2 : (0 : ℝ) ≤ 1 + 3 * Real.log 2 := by linarith
  have h1 : (-Real.log 2 - 3) * (-Real.log 2 - 3) - 8 ≤ (1 + 3 * Real.log 2) ^ 2 := by
    nlinarith
  have h3 := Real.sqrt_le_sqrt h1
  rw [Real.sqrt_sq h2] at h3
  linarith

/-! ## The claims -/

/-- C1, counterexample: the claim says a division with `remainingCount = 0`
makes `_riskPercentiles` fail with an error.  The code has no error path: with
`durations = []` and `clippedLength = 5` the final division happens with
`remainingCount = 0` (the instrumented variant reports `none`), yet the
function returns a normal result — in JS floats the division silently gives
`-Infinity`, clamped to `0`, hence latency `16`. -/
theorem C1_counterexample :
    riskPercentilesChecked [] 100 [1/2] 5 = none ∧
    riskPercentiles [] 100 [1/2] 5 = [(1/2, 16)] := by
  constructor
  · norm_num [riskPercentilesChecked, rpGoChecked, rpLoop, rpStep, rpInit, rpTime, rpCond,
      rpFuel, BASE_RESPONSE_LATENCY]
  · norm_num [riskPercentiles, rpGo, rpLoop, rpStep, rpInit, rpTime, rpCond, rpFuel,
      BASE_RESPONSE_LATENCY]

/-- C1 (amended): for inputs consistent with the duration-sample data model
(durations sorted ascending and non-negative, `clippedLength` zero or smaller
than some duration), `remainingCount` is at least `1` at every division, so the
computation never divides by zero and — in exact arithmetic as in JS floats —
never returns `Infinity` or `NaN`; no error is ever raised. -/
theorem C1_no_zero_division (durations : List ℚ) (totalTime : ℚ) (percentiles : List ℚ)
    (clippedLength : ℚ) (hsorted : durations.Sorted (· ≤ ·))
    (hpos : ∀ d ∈ durations, 0 ≤ d) (hclip0 : 0 ≤ clippedLength)
    (hclip : 0 < clippedLength → ∃ d ∈ durations, clippedLength < d) :
    riskPercentilesChecked durations totalTime percentiles clippedLength =
      some (riskPercentiles durations totalTime percentiles clippedLength) := by
  have hInv := rpInit_inv durations totalTime clippedLength hclip0 hclip
  have hb : ¬ Brc0 (rpInit durations totalTime clippedLength) := by
    rintro ⟨h1, -⟩
    have h1' : (0 : ℚ) < 0 := h1
    exact absurd h1' (lt_irrefl 0)
  exact rpGoChecked_eq durations hsorted hpos totalTime percentiles _ hInv hb

theorem C1_no_zero_division_witness :
    riskPercentilesChecked [10, 10, 10, 10] 100 [1/2, 9/10, 1] 0 =
      some (riskPercentiles [10, 10, 10, 10] 100 [1/2, 9/10, 1] 0) :=
  C1_no_zero_division [10, 10, 10, 10] 100 [1/2, 9/10, 1] 0
    (by norm_num [List.sorted_cons]) (by norm_num) (le_refl 0)
    (fun h => absurd h (lt_irrefl 0))

/-- C2: with an empty durations list (pure idle window), `clippedLength = 0`,
`totalTime > 0` and ascending percentiles in `(0, 1]`, every percentile's
latency is exactly `BASE_RESPONSE_LATENCY`. -/
theorem C2_empty_durations_base_latency (totalTime : ℚ) (percentiles : List ℚ)
    (hT : 0 < totalTime) (hsorted : percentiles.Sorted (· ≤ ·))
    (hps : ∀ p ∈ percentiles, 0 < p ∧ p ≤ 1) :
    riskPercentiles [] totalTime percentiles 0 =
      percentiles.map (fun p => (p, BASE_RESPONSE_LATENCY)) := by
  simp only [riskPercentiles]
  rw [rpGo_empty totalTime percentiles (rpInit [] totalTime 0) rfl]
  apply List.map_congr_left
  intro p hp
  obtain ⟨hp0, hp1⟩ := hps p hp
  have hle : p * totalTime ≤ totalTime := by
    have := mul_le_mul_of_nonneg_right hp1 (le_of_lt hT)
    rwa [one_mul] at this
  have h1 : (rpInit [] totalTime 0).completedTime = totalTime := by
    simp [rpInit]
  have h2 : (rpInit [] totalTime 0).remainingCount = 1 := by
    simp [rpInit]
  have ht : rpTime (p * totalTime) (rpInit [] totalTime 0) = BASE_RESPONSE_LATENCY := by
    unfold rpTime
    rw [h1, h2, Int.cast_one, div_one,
      max_eq_left (by linarith : p * totalTime - totalTime ≤ 0), zero_add]
  rw [ht]

theorem C2_empty_durations_base_latency_witness :
    riskPercentiles [] 100 [1/2, 1] 0 = [(1/2, 16), (1, 16)] := by
  have h := C2_empty_durations_base_latency 100 [1/2, 1] (by norm_num)
    (by norm_num [List.sorted_cons]) (by norm_num)
  simpa [BASE_RESPONSE_LATENCY] using h

/-- C3, counterexample: the claim quantifies over *every* `totalTime`.  With a
negative window length (`totalTime = -100`, reachable through
`getRiskToResponsiveness` when `startTime > endTime`, cf. C9), the two
ascending percentiles `1/2, 1` (both in `(0,1]`) against the sorted empty
durations list with `clippedLength = 0` give latencies `66` then `16`:
strictly decreasing. -/
theorem C3_counterexample :
    riskPercentiles [] (-100) [1/2, 1] 0 = [(1/2, 66), (1, 16)] ∧ ¬ ((66 : ℚ) ≤ 16) := by
  constructor
  · norm_num [riskPercentiles, rpGo, rpLoop, rpStep, rpInit, rpTime, rpCond, rpFuel,
      BASE_RESPONSE_LATENCY]
  · norm_num

/-- C3 (amended): for a *non-negative* `totalTime`, a sorted list of
non-negative durations, a `clippedLength` consistent with the sample (zero, or
smaller than some duration), and ascending percentiles in `(0, 1]`, the
returned latencies are non-decreasing as the percentile increases. -/
theorem C3_latencies_monotone (durations : List ℚ) (totalTime : ℚ) (percentiles : List ℚ)
    (clippedLength : ℚ) (hsorted : durations.Sorted (· ≤ ·))
    (hpos : ∀ d ∈ durations, 0 ≤ d) (hT : 0 ≤ totalTime) (hclip0 : 0 ≤ clippedLength)
    (hclip : 0 < clippedLength → ∃ d ∈ durations, clippedLength < d)
    (hps : percentiles.Sorted (· ≤ ·)) (hps1 : ∀ p ∈ percentiles, 0 < p ∧ p ≤ 1) :
    ((riskPercentiles durations totalTime percentiles clippedLength).map
      Prod.snd).Chain' (· ≤ ·) :=
  rpGo_chain durations hsorted hpos totalTime hT percentiles _
    (rpInit_inv durations totalTime clippedLength hclip0 hclip) hps.chain'

theorem C3_latencies_monotone_witness :
    ((riskPercentiles [10, 10, 10, 10] 100 [1/2, 9/10, 1] 0).map Prod.snd).Chain' (· ≤ ·) :=
  C3_latencies_monotone [10, 10, 10, 10] 100 [1/2, 9/10, 1] 0
    (by norm_num [List.sorted_cons]) (by norm_num) (by norm_num) (le_refl 0)
    (fun h => absurd h (lt_irrefl 0)) (by norm_num [List.sorted_cons]) (by norm_num)

/-- C4: `_riskPercentiles` returns exactly one `{percentile, time}` pair per
requested percentile, in input order (the first components are the input
percentile list itself), and every latency is at least
`BASE_RESPONSE_LATENCY = 16`.  Stated for inputs consistent with the
duration-sample data model, under which the final division is always by a
positive `remainingCount` (cf. C1), so the clamp `max 0 _` is a real number
and the bound holds in JS floats as well. -/
theorem C4_result_shape (durations : List ℚ) (totalTime : ℚ) (percentiles : List ℚ)
    (clippedLength : ℚ) (hsorted : durations.Sorted (· ≤ ·))
    (hpos : ∀ d ∈ durations, 0 ≤ d) (hclip0 : 0 ≤ clippedLength)
    (hclip : 0 < clippedLength → ∃ d ∈ durations, clippedLength < d) :
    (riskPercentiles durations totalTime percentiles clippedLength).map Prod.fst =
      percentiles ∧
    ∀ pr ∈ riskPercentiles durations totalTime percentiles clippedLength,
      BASE_RESPONSE_LATENCY ≤ pr.2 :=
  ⟨rpGo_map_fst durations totalTime percentiles _,
    fun pr h => rpGo_time_ge durations totalTime percentiles _ pr h⟩

theorem C4_result_shape_witness :
    ((riskPercentiles [10, 10, 10, 10] 100 [1/2, 9/10, 1] 0).map Prod.fst =
      [1/2, 9/10, 1]) ∧
    ∀ pr ∈ riskPercentiles [10, 10, 10, 10] 100 [1/2, 9/10, 1] 0,
      BASE_RESPONSE_LATENCY ≤ pr.2 :=
  C4_result_shape [10, 10, 10, 10] 100 [1/2, 9/10, 1] 0 (by norm_num [List.sorted_cons])
    (by norm_num) (le_refl 0) (fun h => absurd h (lt_irrefl 0))

/-- C5, counterexample: the claim says `getLogNormalDistribution(100, 50)`
fails with a domain error.  It does not: both radicands are non-negative for
`falloff = 50 < median = 100` and the function returns finite parameters. -/
theorem C5_counterexample : (getLogNormalDistribution 100 50).isSome = true := by
  simp only [getLogNormalDistribution]
  rw [if_pos ⟨by norm_num, by norm_num, logNormal_100_50_inner, logNormal_100_50_outer⟩]
  rfl

/-- C5 (amended): `getLogNormalDistribution` performs no validation and never
raises.  In particular for `median = 100`, `falloff = 50` (falloff below the
median) both radicands are non-negative and the call returns the finite
parameters `location = log 100` and
`shape = 0.5 * sqrt (1 + 3 log 2 - sqrt ((log 2 + 3)^2 - 8)) ≈ 0.42` instead
of failing.  (A NaN, modelled by `none`, arises only from a negative radicand
or non-positive inputs, and is returned silently, not raised.) -/
theorem C5_logNormal_returns_parameters :
    getLogNormalDistribution 100 50 =
      some (Real.log 100,
        0.5 * Real.sqrt (1 + 3 * Real.log 2 -
          Real.sqrt ((Real.log 2 + 3) * (Real.log 2 + 3) - 8))) := by
  simp only [getLogNormalDistribution]
  rw [if_pos ⟨by norm_num, by norm_num, logNormal_100_50_inner, logNormal_100_50_outer⟩]
  rw [log_half_eq]
  rw [show (-Real.log 2 - 3) * (-Real.log 2 - 3) = (Real.log 2 + 3) * (Real.log 2 + 3) from
    by ring]
  rw [show (1 : ℝ) - 3 * -Real.log 2 = 1 + 3 * Real.log 2 from by ring]

/-- C6, counterexample: the claim says the percentiles list holds the same
elements in the same order after the call.  JS `Array.prototype.sort` mutates:
after `getRiskToResponsiveness(trace, _, _, [0.9, 0.5])` the caller's array is
`[0.5, 0.9]` — same elements, different order. -/
theorem C6_counterexample :
    (getRiskToResponsiveness testTrace none none (some [9/10, 1/2])).map
      (fun o => o.2.2) = some [1/2, 9/10] ∧
    ([(1 : ℚ)/2, 9/10] : List ℚ) ≠ [9/10, 1/2] := by
  constructor
  · rw [getRisk_testTrace_unsorted_eval]
    rfl
  · intro h
    have := List.head_eq_of_cons_eq h
    norm_num at this

/-- C6 (amended): the computation is deterministic (it is a function), but
`getRiskToResponsiveness` sorts both `trace.traceEvents` and a supplied
`percentiles` array in place: after a successful call each holds the same
elements as before — a permutation — in ascending order, which need not be the
original order. -/
theorem C6_getRisk_sorts_in_place (trace : List TraceEvent) (s? e? : Option ℚ)
    (ps : List ℚ) (out : List (ℚ × ℚ) × List TraceEvent × List ℚ)
    (h : getRiskToResponsiveness trace s? e? (some ps) = some out) :
    out.2.1.Perm trace ∧ out.2.1.Sorted (fun a b => a.ts ≤ b.ts) ∧
    out.2.2.Perm ps ∧ out.2.2.Sorted (· ≤ ·) := by
  rcases getRisk_shape trace s? e? (some ps) with hnone | ⟨D, C, T, hsome⟩
  · rw [hnone] at h
    exact absurd h (by simp)
  · rw [hsome] at h
    have heq := Option.some.inj h
    subst heq
    refine ⟨List.perm_insertionSort _ trace, ?_, List.perm_insertionSort _ ps, ?_⟩
    · exact @List.sorted_insertionSort TraceEvent (fun a b => a.ts ≤ b.ts) _
        ⟨fun a b => le_total a.ts b.ts⟩ ⟨fun a b c hab hbc => le_trans hab hbc⟩ trace
    · exact List.sorted_insertionSort _ ps

theorem C6_getRisk_sorts_in_place_witness :
    testTrace.Perm testTrace ∧ testTrace.Sorted (fun a b => a.ts ≤ b.ts) ∧
    ([(1 : ℚ)/2, 9/10] : List ℚ).Perm [9/10, 1/2] ∧
    ([(1 : ℚ)/2, 9/10] : List ℚ).Sorted (· ≤ ·) :=
  C6_getRisk_sorts_in_place testTrace none none [9/10, 1/2]
    ([(1/2, 43/2), (9/10, 411/10)], testTrace, [1/2, 9/10])
    getRisk_testTrace_unsorted_eval

/-- C7, counterexample: the claim's concrete figure is wrong.  An event
spanning `[startTime - 10, startTime + 40]` (here `[10, 60]` ms with
`startTime = 20`) inside the window `[20, 120]` contributes
`eventEnd - windowStart = 40` ms — not 30 ms. -/
theorem C7_counterexample :
    (sliceDurations 0 20 120
      [{ name := "MessageLoop::RunTask", pid := 1, tid := 1, ts := 10000,
         dur := some 50000 }]).1 = [40] ∧ ¬ ((40 : ℚ) = 30) := by
  constructor
  · norm_num [sliceDurations, sliceStep]
  · norm_num

/-- C7 (amended): for a task event starting before the window and ending
inside it, the sampler contributes an effective duration of exactly
`eventEnd - windowStart` (for the spec's example `[startTime-10,
startTime+40]` in `[startTime, startTime+100]`: 40 ms, not 50 ms and not the
30 ms the spec's example states). -/
theorem C7_front_clip (tsBase startTime endTime : ℚ) (acc : List ℚ × ℚ) (e : TraceEvent)
    (h1 : (e.ts - tsBase) / 1000 < startTime)
    (h2 : startTime < (e.ts - tsBase) / 1000 + e.dur.getD 0 / 1000)
    (h3 : (e.ts - tsBase) / 1000 + e.dur.getD 0 / 1000 ≤ endTime) :
    (sliceStep tsBase startTime endTime acc e).1 =
      acc.1 ++ [(e.ts - tsBase) / 1000 + e.dur.getD 0 / 1000 - startTime] := by
  have hnd : ¬((e.ts - tsBase) / 1000 + e.dur.getD 0 / 1000 ≤ startTime ∨
      (e.ts - tsBase) / 1000 ≥ endTime) := by
    push_neg
    exact ⟨h2, by linarith⟩
  simp only [sliceStep]
  rw [if_neg hnd, if_pos h1, if_pos h1]

theorem C7_front_clip_witness :
    (sliceStep 0 20 120 (([] : List ℚ), 0)
      { name := "MessageLoop::RunTask", pid := 1, tid := 1, ts := 10000,
        dur := some 50000 }).1 =
      ([] : List ℚ) ++ [((10000 : ℚ) - 0) / 1000 + (some (50000 : ℚ)).getD 0 / 1000 - 20] :=
  C7_front_clip 0 20 120 (([] : List ℚ), 0)
    { name := "MessageLoop::RunTask", pid := 1, tid := 1, ts := 10000, dur := some 50000 }
    (by norm_num) (by norm_num) (by norm_num)

/-- C8: the `clippedLength` handed to the estimator is the value written by
the most recently processed end-clipped event ("last write wins"); earlier
end-clipped events' portions are overwritten, never accumulated.  The final
`clippedLength` equals the clip value of the *last* event that passes the
discard test and runs past the window's end (`0` when there is none). -/
theorem C8_clippedLength_last_write (tsBase startTime endTime : ℚ)
    (events : List TraceEvent) :
    (sliceDurations tsBase startTime endTime events).2 =
      ((events.filter
          (fun ev => decide (sliceEndClipped tsBase startTime endTime ev))).getLast?.elim
        0 (sliceClipOf tsBase startTime endTime)) :=
  sliceFold_clippedLength tsBase startTime endTime events ([], 0)

/-- C9, counterexample: the claim says `startTime >= endTime` makes
`getRiskToResponsiveness` fail.  With `startTime = 50 > endTime = 10` it
happily returns a result (computed with the negative `totalTime = -40`). -/
theorem C9_counterexample :
    getRiskToResponsiveness testTrace (some 50) (some 10) (some [1/2]) =
      some ([(1/2, 36)], testTrace, [1/2]) ∧ ((10 : ℚ) < 50) :=
  ⟨getRisk_testTrace_inverted_eval, by norm_num⟩

/-- C9 (amended): `getRiskToResponsiveness` performs no window validation at
all: for every trace that is otherwise processable (some event with a nonzero
timestamp, and a `TracingStartedInPage` marker), it returns a result for
*every* pair of window bounds — including `startTime ≥ endTime`. -/
theorem C9_no_window_validation (trace : List TraceEvent) (s? e? : Option ℚ)
    (ps? : Option (List ℚ)) (h1 : ∃ ev ∈ trace, ev.ts ≠ 0)
    (h2 : ∃ ev ∈ trace, ev.name = "TracingStartedInPage") :
    (getRiskToResponsiveness trace s? e? ps?).isSome = true := by
  have hperm := List.perm_insertionSort (fun a b => a.ts ≤ b.ts) trace
  obtain ⟨ev, hmem, hts⟩ := h1
  have hmem' : ev ∈ trace.insertionSort (fun a b => a.ts ≤ b.ts) := hperm.mem_iff.mpr hmem
  have hfil : ev ∈ (trace.insertionSort (fun a b => a.ts ≤ b.ts)).filter
      (fun e => decide (e.ts ≠ 0)) :=
    List.mem_filter.mpr ⟨hmem', by simpa using hts⟩
  obtain ⟨ev2, hmem2, hname⟩ := h2
  have hmem2' : ev2 ∈ trace.insertionSort (fun a b => a.ts ≤ b.ts) := hperm.mem_iff.mpr hmem2
  have hfind : ((trace.insertionSort (fun a b => a.ts ≤ b.ts)).find?
      (fun e => e.name == "TracingStartedInPage")).isSome := by
    rw [List.find?_isSome]
    exact ⟨ev2, hmem2', by simpa using hname⟩
  simp only [getRiskToResponsiveness]
  cases hE : (trace.insertionSort (fun a b => a.ts ≤ b.ts)).filter
      (fun e => decide (e.ts ≠ 0)) with
  | nil =>
    rw [hE] at hfil
    exact absurd hfil (List.not_mem_nil ev)
  | cons e0 rest =>
    cases hF : (trace.insertionSort (fun a b => a.ts ≤ b.ts)).find?
        (fun e => e.name == "TracingStartedInPage") with
    | none =>
      rw [hF] at hfind
      simp at hfind
    | some st => rfl

theorem C9_no_window_validation_witness :
    (getRiskToResponsiveness testTrace (some 50) (some 10) (some [1/2])).isSome = true :=
  C9_no_window_validation testTrace (some 50) (some 10) (some [1/2])
    ⟨evTSI, by norm_num [testTrace], by norm_num [evTSI]⟩
    ⟨evTSI, by norm_num [testTrace], rfl⟩

/-- C10: when the percentiles argument is omitted, the latencies are computed
for the default list `[0.5, 0.75, 0.9, 0.99, 1]`; when it is supplied, the
list is sorted ascending before use (the result's percentile components are a
sorted permutation of the supplied list). -/
theorem C10_percentiles_default_and_sort :
    (∀ trace s? e? out, getRiskToResponsiveness trace s? e? none = some out →
      out.1.map Prod.fst = [1/2, 3/4, 9/10, 99/100, 1]) ∧
    (∀ trace s? e? ps out, getRiskToResponsiveness trace s? e? (some ps) = some out →
      (out.1.map Prod.fst).Perm ps ∧ (out.1.map Prod.fst).Sorted (· ≤ ·)) := by
  constructor
  · intro trace s? e? out h
    rcases getRisk_shape trace s? e? none with hnone | ⟨D, C, T, hsome⟩
    · rw [hnone] at h
      exact absurd h (by simp)
    · rw [hsome] at h
      have heq := Option.some.inj h
      subst heq
      show (riskPercentiles D T defaultPercentiles C).map Prod.fst = _
      simp only [riskPercentiles]
      rw [rpGo_map_fst]
      rfl
  · intro trace s? e? ps out h
    rcases getRisk_shape trace s? e? (some ps) with hnone | ⟨D, C, T, hsome⟩
    · rw [hnone] at h
      exact absurd h (by simp)
    · rw [hsome] at h
      have heq := Option.some.inj h
      subst heq
      have hfst : ((riskPercentiles D T (ps.insertionSort (· ≤ ·)) C).map Prod.fst) =
          ps.insertionSort (· ≤ ·) := by
        simp only [riskPercentiles]
        exact rpGo_map_fst D T _ _
      constructor
      · rw [show ((riskPercentiles D T
            ((some ps).elim defaultPercentiles (fun l => l.insertionSort (· ≤ ·))) C,
            trace.insertionSort (fun a b => a.ts ≤ b.ts),
            (some ps).elim defaultPercentiles
              (fun l => l.insertionSort (· ≤ ·))).1.map Prod.fst) =
          ps.insertionSort (· ≤ ·) from hfst]
        exact List.perm_insertionSort _ ps
      · rw [show ((riskPercentiles D T
            ((some ps).elim defaultPercentiles (fun l => l.insertionSort (· ≤ ·))) C,
            trace.insertionSort (fun a b => a.ts ≤ b.ts),
            (some ps).elim defaultPercentiles
              (fun l => l.insertionSort (· ≤ ·))).1.map Prod.fst) =
          ps.insertionSort (· ≤ ·) from hfst]
        exact List.sorted_insertionSort _ ps

theorem C10_percentiles_default_and_sort_witness :
    ([((1 : ℚ)/2, (43 : ℚ)/2), (3/4, 135/4), (9/10, 411/10), (99/100, 4551/100),
        (1, 46)].map Prod.fst = [1/2, 3/4, 9/10, 99/100, 1]) ∧
    (([((1 : ℚ)/2, (43 : ℚ)/2), (9/10, 411/10)].map Prod.fst).Perm [9/10, 1/2] ∧
      ([((1 : ℚ)/2, (43 : ℚ)/2), (9/10, 411/10)].map Prod.fst).Sorted (· ≤ ·)) :=
  ⟨C10_percentiles_default_and_sort.1 testTrace none none
      ([(1/2, 43/2), (3/4, 135/4), (9/10, 411/10), (99/100, 4551/100), (1, 46)],
        testTrace, defaultPercentiles) getRisk_testTrace_default_eval,
    C10_percentiles_default_and_sort.2 testTrace none none [9/10, 1/2]
      ([(1/2, 43/2), (9/10, 411/10)], testTrace, [1/2, 9/10])
      getRisk_testTrace_unsorted_eval⟩
